import Mathlib

/-
Verification development for the TuxFw firewall (Python sources under
firewall/script/).  The Python classes are shallowly embedded as Lean
structures; mutating methods become pure functions returning the updated
state; `time.time()` is modelled by an explicit integer-valued instant
passed to each call; fallible code returns Option/Except.
-/

set_option autoImplicit false

universe u v

/-! ## Association-list maps (model of Python dict) -/

/-- Model of Python dictionary lookup on an association list. -/
def lookupA {κ : Type u} {α : Type v} [DecidableEq κ] : List (κ × α) → κ → Option α
  | [], _ => none
  | (k, v) :: rest, key => if k = key then some v else lookupA rest key

/-- Model of Python dictionary assignment: replace the binding if the key is
present, otherwise append a fresh binding. -/
def updateA {κ : Type u} {α : Type v} [DecidableEq κ] : List (κ × α) → κ → α → List (κ × α)
  | [], key, v => [(key, v)]
  | (k, w) :: rest, key, v =>
    if k = key then (key, v) :: rest else (k, w) :: updateA rest key v

/-- Model of Python `del d[key]` / `d.pop(key, None)`. -/
def eraseA {κ : Type u} {α : Type v} [DecidableEq κ] (l : List (κ × α)) (key : κ) :
    List (κ × α) :=
  l.filter (fun kv => kv.1 ≠ key)

theorem lookupA_updateA_self {κ : Type u} {α : Type v} [DecidableEq κ]
    (l : List (κ × α)) (key : κ) (v : α) : lookupA (updateA l key v) key = some v := by
  induction l with
  | nil => simp [updateA, lookupA]
  | cons kv rest ih =>
    obtain ⟨k, w⟩ := kv
    by_cases h : k = key
    · simp [updateA, h, lookupA]
    · simp [updateA, h, lookupA, ih]

theorem lookupA_updateA_ne {κ : Type u} {α : Type v} [DecidableEq κ]
    (l : List (κ × α)) (key q : κ) (v : α) (h : key ≠ q) :
    lookupA (updateA l key v) q = lookupA l q := by
  induction l with
  | nil => simp [updateA, lookupA, h]
  | cons kv rest ih =>
    obtain ⟨k, w⟩ := kv
    by_cases hk : k = key
    · subst hk
      simp [updateA, lookupA, h]
    · simp [updateA, hk, lookupA, ih]

theorem lookupA_eraseA_self {κ : Type u} {α : Type v} [DecidableEq κ]
    (l : List (κ × α)) (key : κ) : lookupA (eraseA l key) key = none := by
  induction l with
  | nil => simp [eraseA, lookupA]
  | cons kv rest ih =>
    obtain ⟨k, w⟩ := kv
    by_cases h : k = key
    · simpa [eraseA, h] using ih
    · simpa [eraseA, h, lookupA] using ih

theorem lookupA_append {κ : Type u} {α : Type v} [DecidableEq κ]
    (a b : List (κ × α)) (key : κ) :
    lookupA (a ++ b) key = ((lookupA a key).rec (lookupA b key) (fun v => some v)) := by
  induction a with
  | nil => simp [lookupA]
  | cons kv rest ih =>
    obtain ⟨k, w⟩ := kv
    by_cases h : k = key
    · simp [lookupA, h]
    · simp [lookupA, h, ih]

theorem lookupA_of_keys_ne {κ : Type u} {α : Type v} [DecidableEq κ]
    (l : List (κ × α)) (key : κ) (h : ∀ kv ∈ l, kv.1 ≠ key) : lookupA l key = none := by
  induction l with
  | nil => rfl
  | cons kv rest ih =>
    obtain ⟨k, w⟩ := kv
    have hk : k ≠ key := h (k, w) (by simp)
    simp only [lookupA, if_neg hk]
    exact ih (fun kv hkv => h kv (by simp [hkv]))

theorem lookupA_append_none {κ : Type u} {α : Type v} [DecidableEq κ]
    (a b : List (κ × α)) (key : κ) (h : lookupA a key = none) :
    lookupA (a ++ b) key = lookupA b key := by
  rw [lookupA_append, h]

/-! ## Small models of Python primitives

The Lean core string functions are implemented by well-founded recursion and
do not reduce inside the kernel, so the Python string operations used by the
firewall are modelled here by structural recursion over `String.data`
(ASCII semantics, which is what the firewall's inputs use). -/

/-- Model of Python `s.strip()`: surrounding whitespace removed. -/
def pyStrip (s : String) : String :=
  ⟨((s.data.dropWhile Char.isWhitespace).reverse.dropWhile Char.isWhitespace).reverse⟩

/-- Splitting a character list at every occurrence of a separator character;
like Python `str.split(sep)`, the result always has one more part than there
are separators (so it is never empty). -/
def splitChList (c : Char) : List Char → List (List Char)
  | [] => [[]]
  | x :: xs =>
    let r := splitChList c xs
    if x = c then [] :: r
    else
      match r with
      | [] => [[x]]
      | h :: t => (x :: h) :: t

/-- Model of Python `s.split(sep)` for a one-character separator. -/
def pySplit (s : String) (c : Char) : List String :=
  (splitChList c s.data).map (fun l => ⟨l⟩)

/-- Concatenation of parts with a separator character in between
(Python `sep.join(parts)` on character lists). -/
def joinChList (c : Char) : List (List Char) → List Char
  | [] => []
  | [l] => l
  | l :: ls => l ++ (c :: joinChList c ls)

/-- Model of Python `s.split(sep, 1)` for a one-character separator: the part
before the first separator and everything after it. -/
def pySplitOnce (s : String) (c : Char) : String × String :=
  match splitChList c s.data with
  | [] => (s, "")
  | h :: t => (⟨h⟩, ⟨joinChList c t⟩)

/-- Model of Python `s.startswith(c)` for a one-character pattern. -/
def pyStartsWith (s : String) (c : Char) : Bool :=
  match s.data with
  | [] => false
  | x :: _ => x = c

/-- Model of Python `c in s` membership for a character. -/
def pyContainsChar (s : String) (c : Char) : Bool :=
  s.data.contains c

/-- Decimal parse of a character list: some value iff nonempty and all ASCII
digits. -/
def listToNat? (l : List Char) : Option Nat :=
  if l ≠ [] ∧ l.all Char.isDigit then
    some (l.foldl (fun n c => 10 * n + (c.toNat - 48)) 0)
  else none

/-- Model of Python `int(s)` on a string: optional surrounding whitespace,
an optional sign, then decimal digits; anything else raises, modelled as
`none`. -/
def pyInt (s : String) : Option Int :=
  match (pyStrip s).data with
  | '-' :: rest => (listToNat? rest).map (fun n => -(n : Int))
  | '+' :: rest => (listToNat? rest).map (fun n => (n : Int))
  | l => (listToNat? l).map (fun n => (n : Int))

/-- Model of Python `s.isdigit()` for ASCII strings: nonempty and all digits. -/
def pyIsDigit (s : String) : Bool :=
  (listToNat? s.data).isSome

/-- ASCII upper-casing of one character. -/
def charUpper (c : Char) : Char :=
  if 97 ≤ c.toNat ∧ c.toNat ≤ 122 then Char.ofNat (c.toNat - 32) else c

/-- ASCII lower-casing of one character. -/
def charLower (c : Char) : Char :=
  if 65 ≤ c.toNat ∧ c.toNat ≤ 90 then Char.ofNat (c.toNat + 32) else c

/-- Model of Python `s.upper()` (ASCII). -/
def pyUpper (s : String) : String :=
  ⟨s.data.map charUpper⟩

/-- Model of Python `s.lower()` (ASCII). -/
def pyLower (s : String) : String :=
  ⟨s.data.map charLower⟩

/-- Model of the Python slice `l[-n:]`: for `n = 0` this is the whole list
(`l[-0:] = l[0:]`), otherwise the last `n` elements (all of `l` when
`n ≥ l.length`). -/
def pyLastN {α : Type u} (l : List α) (n : Nat) : List α :=
  if n = 0 then l else l.drop (l.length - n)

/-- Model of Python `set.add`: append the element if it is not yet present. -/
def pyInsert {α : Type u} [DecidableEq α] (l : List α) (x : α) : List α :=
  if x ∈ l then l else l ++ [x]

/-- Model of Python `set.discard`: remove the element wherever it occurs. -/
def pyRemove {α : Type u} [DecidableEq α] (l : List α) (x : α) : List α :=
  l.filter (fun y => y ≠ x)

/-! ## security_utils.py -/

/-- Verdicts of `EnhancedSecurity.check_security` (enum `SecurityAction`). -/
inductive SecurityAction where
  | allow
  | block
  | rate_limit
  | geo_block
  | reputation_block
deriving DecidableEq, Repr

/-- Dataclass `RateLimitConfig` (max requests per time window, seconds). -/
structure RateLimitConfig where
  maxRequests : Nat
  timeWindow : Int
deriving DecidableEq, Repr

/-- Class `RateLimiter`.  The source keeps `self.config` as a dict that the
constructor always seeds with a `"default"` entry; it is modelled as the
default entry plus the remaining (endpoint, config) bindings.
`self.requests` maps an IP to per-endpoint time-ordered deques of request
timestamps; it is modelled as an association list keyed by (ip, endpoint). -/
structure RateLimiter where
  defaultConfig : RateLimitConfig
  otherConfigs : List (String × RateLimitConfig)
  requests : List ((String × String) × List Int)
deriving DecidableEq, Repr

/-- True when `endpoint in self.config`. -/
def RateLimiter.hasEndpoint (rl : RateLimiter) (ep : String) : Bool :=
  ep = "default" || (lookupA rl.otherConfigs ep).isSome

/-- The endpoint actually used: `if endpoint not in self.config: endpoint = "default"`. -/
def RateLimiter.resolveEp (rl : RateLimiter) (ep : String) : String :=
  if rl.hasEndpoint ep then ep else "default"

/-- Dict access `self.config[endpoint]` after resolution. -/
def RateLimiter.cfgFor (rl : RateLimiter) (ep : String) : RateLimitConfig :=
  (lookupA rl.otherConfigs ep).getD rl.defaultConfig

/-- The request queue stored for (ip, endpoint); `defaultdict` yields the
empty deque for missing keys. -/
def RateLimiter.queueOf (rl : RateLimiter) (ip ep : String) : List Int :=
  (lookupA rl.requests (ip, ep)).getD []

/-- Method `RateLimiter.is_rate_limited(ip, endpoint)` at instant `now`:
old entries are popped from the front while `now - q[0] > time_window`;
if the remaining queue has reached `max_requests` the call reports `True`
without recording, otherwise the request is appended and `False` returned. -/
def RateLimiter.isRateLimited (rl : RateLimiter) (ip ep : String) (now : Int) :
    Bool × RateLimiter :=
  let ep2 := rl.resolveEp ep
  let cfg := rl.cfgFor ep2
  let q := rl.queueOf ip ep2
  let q2 := q.dropWhile (fun t => decide (now - t > cfg.timeWindow))
  if cfg.maxRequests ≤ q2.length then
    (true, { rl with requests := updateA rl.requests (ip, ep2) q2 })
  else
    (false, { rl with requests := updateA rl.requests (ip, ep2) (q2 ++ [now]) })

/-- Class `GeoIPBlocker`: `available` is whether the geoip2 library was
importable, `hasDb` whether `self.geoip_db` was successfully loaded, and
`blockedCountries` is the set of blocked country codes (a Python set,
modelled as a duplicate-free insertion-ordered list). -/
structure GeoIPBlocker where
  available : Bool
  hasDb : Bool
  blockedCountries : List String
deriving DecidableEq, Repr

/-- Method `GeoIPBlocker.block_country`: adds `country_code.upper()`. -/
def GeoIPBlocker.blockCountry (g : GeoIPBlocker) (c : String) : GeoIPBlocker :=
  { g with blockedCountries := pyInsert g.blockedCountries (pyUpper c) }

/-- Method `GeoIPBlocker.unblock_country`: discards `country_code.upper()`. -/
def GeoIPBlocker.unblockCountry (g : GeoIPBlocker) (c : String) : GeoIPBlocker :=
  { g with blockedCountries := pyRemove g.blockedCountries (pyUpper c) }

/-- Method `GeoIPBlocker.is_country_blocked(ip)`.  The GeoIP database lookup
is external I/O; it is passed in as `geoLookup : ip -> Option iso_code`,
where `none` models a lookup that raises (caught, yielding `False`). -/
def GeoIPBlocker.isCountryBlocked (g : GeoIPBlocker) (geoLookup : String → Option String)
    (ip : String) : Bool :=
  if !g.available || !g.hasDb || g.blockedCountries.isEmpty then false
  else
    match geoLookup ip with
    | none => false
    | some iso => pyUpper iso ∈ g.blockedCountries

/-- Class `IPReputationChecker`: the set of known-bad IPs, the last feed
refresh instant, the refresh cooldown and whether the requests library is
available. -/
structure IPReputationChecker where
  badIps : List String
  lastUpdated : Option Int
  updateInterval : Int
  available : Bool
deriving DecidableEq, Repr

/-- External environment of a `check_security` call: the GeoIP database
lookup, the threat-feed lines a refresh would download, and whether the
downloads succeed (any request exception aborts the whole refresh). -/
structure SecEnv where
  geoLookup : String → Option String
  feedLines : List String
  feedsOk : Bool

/-- One retrieved feed line contributes `line.strip()` when the original
line strips to something nonempty and does not start with a hash. -/
def feedEntries (lines : List String) : List String :=
  lines.filterMap (fun l => if pyStrip l ≠ "" ∧ ¬pyStartsWith l '#' then some (pyStrip l) else none)

/-- Method `IPReputationChecker.update_threat_feeds` at instant `now`:
a no-op unless the library is available and the cooldown has elapsed
(or no refresh ever happened); on a successful refresh the parsed feed
lines are added to `bad_ips` and `last_updated` is set. -/
def IPReputationChecker.updateThreatFeeds (rep : IPReputationChecker) (env : SecEnv)
    (now : Int) : IPReputationChecker :=
  if !rep.available then rep
  else if (match rep.lastUpdated with
           | none => true
           | some t => decide (now - t > rep.updateInterval)) then
    if env.feedsOk then
      { rep with
        badIps := (feedEntries env.feedLines).foldl pyInsert rep.badIps
        lastUpdated := some now }
    else rep
  else rep

/-- Method `IPReputationChecker.is_malicious(ip)`. -/
def IPReputationChecker.isMalicious (rep : IPReputationChecker) (ip : String) : Bool :=
  ip ∈ rep.badIps

/-- Class `PortKnocking`: the configured knock sequence, the time window in
seconds, and per-IP recorded (timestamp, port) knock attempts.  The source
caches `sequence_length = len(sequence)`. -/
structure PortKnocking where
  sequence : List Int
  window : Int
  knockAttempts : List (String × List (Int × Int))
deriving DecidableEq, Repr

/-- Method `PortKnocking._check_sequence(ip)`: the ports of the recorded
knocks must number at least `sequence_length` and their last
`sequence_length` entries (Python `ports[-n:]`) must equal the sequence. -/
def PortKnocking.checkSequence (pk : PortKnocking) (ip : String) : Bool :=
  match lookupA pk.knockAttempts ip with
  | none => false
  | some l =>
    let ports := l.map (fun tp => tp.2)
    if ports.length < pk.sequence.length then false
    else pyLastN ports pk.sequence.length = pk.sequence

/-- Method `PortKnocking.add_knock(ip, port)` at instant `now`: knocks older
than the window (`now - t > window` filtered out, i.e. keep `now - t ≤ window`)
are evicted for that IP, the new knock is appended, and the sequence check
runs on the result. -/
def PortKnocking.addKnock (pk : PortKnocking) (ip : String) (port : Int) (now : Int) :
    Bool × PortKnocking :=
  let old := ((lookupA pk.knockAttempts ip).map
    (fun l => l.filter (fun tp => decide (now - tp.1 ≤ pk.window)))).getD []
  let pk2 := { pk with knockAttempts := updateA pk.knockAttempts ip (old ++ [(now, port)]) }
  (pk2.checkSequence ip, pk2)

/-- Class `EnhancedSecurity`: the four sub-checkers plus the temporary
block list mapping an IP to its absolute unblock instant. -/
structure EnhancedSecurity where
  rateLimiter : RateLimiter
  geoBlocker : GeoIPBlocker
  ipReputation : IPReputationChecker
  portKnocking : PortKnocking
  blockedIps : List (String × Int)
deriving Repr

/-- Steps (2)-(5) of `EnhancedSecurity.check_security`, i.e. everything after
the explicit block-list check: rate limiter (tripping auto-blocks the IP for
300 seconds), GeoIP country block, reputation feed (refreshed first), and
port knocking, which only runs when the supplied port is truthy. -/
def checkAfterBlocklist (env : SecEnv) (s : EnhancedSecurity) (ip : String)
    (port : Option Int) (now : Int) : SecurityAction × EnhancedSecurity :=
  let rlRes := s.rateLimiter.isRateLimited ip "default" now
  let s1 := { s with rateLimiter := rlRes.2 }
  if rlRes.1 then
    (.rate_limit, { s1 with blockedIps := updateA s1.blockedIps ip (now + 300) })
  else if s1.geoBlocker.isCountryBlocked env.geoLookup ip then
    (.geo_block, s1)
  else
    let rep2 := s1.ipReputation.updateThreatFeeds env now
    let s2 := { s1 with ipReputation := rep2 }
    if rep2.isMalicious ip then
      (.reputation_block, s2)
    else
      match port with
      | some p =>
        if p ≠ 0 then
          let knock := s2.portKnocking.addKnock ip p now
          ((if knock.1 then .allow else .block), { s2 with portKnocking := knock.2 })
        else (.allow, s2)
      | none => (.allow, s2)

/-- Method `EnhancedSecurity.check_security(ip, port)` at instant `now`:
an unexpired entry of `blocked_ips` short-circuits to BLOCK; an expired
entry is deleted on this access and evaluation falls through to the
remaining checks.  Note `if port and ...`: a supplied port of 0 is falsy
in Python, so it disables the port-knocking step just like `None`. -/
def checkSecurity (env : SecEnv) (s : EnhancedSecurity) (ip : String)
    (port : Option Int) (now : Int) : SecurityAction × EnhancedSecurity :=
  match lookupA s.blockedIps ip with
  | some t =>
    if now < t then (.block, s)
    else checkAfterBlocklist env { s with blockedIps := eraseA s.blockedIps ip } ip port now
  | none => checkAfterBlocklist env s ip port now

/-- Method `EnhancedSecurity.block_ip(ip, duration)` at instant `now`. -/
def blockIp (s : EnhancedSecurity) (ip : String) (duration : Int) (now : Int) :
    EnhancedSecurity :=
  { s with blockedIps := updateA s.blockedIps ip (now + duration) }

/-! ## network_zones.py -/

/-- Dataclass `NetworkZone`.  `vpn_config` is an arbitrary dict, modelled as
an association list of strings. -/
structure NetworkZone where
  name : String
  description : String
  networks : List String
  interfaces : List String
  isVpn : Bool
  vpnConfig : Option (List (String × String))
  tags : List String
deriving DecidableEq, Repr

/-- Class `ZoneManager`: `self.zones` is a dict keyed by `zone.name.lower()`.
Disk persistence (`save_zone` writing a json file) is side I/O and modelled
as succeeding. -/
structure ZoneManager where
  zones : List (String × NetworkZone)
deriving DecidableEq, Repr

/-- Method `ZoneManager.get_zone(name)`: dict lookup under `name.lower()`. -/
def ZoneManager.getZone (m : ZoneManager) (name : String) : Option NetworkZone :=
  lookupA m.zones (pyLower name)

/-- Method `ZoneManager.add_zone(zone)`: refuse when `zone.name.lower()` is
already a key, otherwise store the zone under that key (and save it). -/
def ZoneManager.addZone (m : ZoneManager) (z : NetworkZone) : Bool × ZoneManager :=
  if (lookupA m.zones (pyLower z.name)).isSome then (false, m)
  else (true, { zones := updateA m.zones (pyLower z.name) z })

/-- Keyword arguments accepted by `ZoneManager.update_zone`; `setattr` is only
performed for attributes the dataclass has, so only these fields can change. -/
structure ZoneUpdate where
  name : Option String := none
  description : Option String := none
  networks : Option (List String) := none
  interfaces : Option (List String) := none
  isVpn : Option Bool := none
  vpnConfig : Option (Option (List (String × String))) := none
  tags : Option (List String) := none
deriving Repr

/-- Field-by-field effect of the `setattr` loop in `update_zone`. -/
def applyZoneUpdate (z : NetworkZone) (u : ZoneUpdate) : NetworkZone :=
  { name := u.name.getD z.name
    description := u.description.getD z.description
    networks := u.networks.getD z.networks
    interfaces := u.interfaces.getD z.interfaces
    isVpn := u.isVpn.getD z.isVpn
    vpnConfig := u.vpnConfig.getD z.vpnConfig
    tags := u.tags.getD z.tags }

/-- Method `ZoneManager.update_zone(name, **kwargs)`: looks the zone up under
`name.lower()` and mutates that stored object in place — the dict key is NOT
changed, even when the update rewrites `zone.name`. -/
def ZoneManager.updateZone (m : ZoneManager) (name : String) (u : ZoneUpdate) :
    Bool × ZoneManager :=
  match lookupA m.zones (pyLower name) with
  | none => (false, m)
  | some z => (true, { zones := updateA m.zones (pyLower name) (applyZoneUpdate z u) })

/-- Method `ZoneManager.delete_zone(name)`: removes the entry under
`name.lower()` when present. -/
def ZoneManager.deleteZone (m : ZoneManager) (name : String) : Bool × ZoneManager :=
  match lookupA m.zones (pyLower name) with
  | none => (false, m)
  | some _ => (true, { zones := eraseA m.zones (pyLower name) })

/-- The stored zones never contain two zones whose names differ only in
case (the uniqueness invariant claimed for zone names). -/
def zoneNamesCaseUnique (m : ZoneManager) : Prop :=
  m.zones.Pairwise (fun a b => pyLower a.2.name ≠ pyLower b.2.name)

/-- Structural well-formedness maintained by the zone map: every entry is
keyed by the lower-cased name of the stored zone, and keys are distinct. -/
def zoneMapWF (m : ZoneManager) : Prop :=
  (∀ kv ∈ m.zones, kv.1 = pyLower kv.2.name) ∧ m.zones.Pairwise (fun a b => a.1 ≠ b.1)

/-! ## network_monitor.py -/

/-- Dataclass `ConnectionInfo`.  An absent remote endpoint is recorded as the
empty string (`remote_addr=remote or ""`). -/
structure ConnectionInfo where
  localAddr : String
  remoteAddr : String
  status : String
  pid : Int
  processName : String
  protocol : String
deriving DecidableEq, Repr

/-- One threat dict appended by `IntrusionDetectionSystem.analyze_connection`. -/
structure Threat where
  ruleId : String
  severity : String
  description : String
  connection : ConnectionInfo
deriving DecidableEq, Repr

/-- The `suspicious_ports` table of `analyze_connection`. -/
def suspiciousPorts : List (Int × String) :=
  [(22, "SSH (potential brute force target)"),
   (23, "Telnet (insecure protocol)"),
   (80, "HTTP (potential web attack)"),
   (443, "HTTPS (potential web attack)"),
   (3389, "RDP (potential brute force target)"),
   (5900, "VNC (potential unauthorized access)")]

/-- The threat emitted for a suspicious port. -/
def mkSuspiciousThreat (conn : ConnectionInfo) (p : Int) : Threat :=
  { ruleId := "suspicious_port"
    severity := "medium"
    description := "Connection to potentially sensitive port " ++ toString p ++
      " (" ++ ((lookupA suspiciousPorts p).getD "") ++ ")"
    connection := conn }

/-- Method `IntrusionDetectionSystem.analyze_connection(conn)`: when the
connection has a truthy remote address containing a colon, the text after the
last colon is parsed with `int` (an unparsable port raises `ValueError`,
modelled as `.error ()`); a port present in `suspicious_ports` and not in
`[80, 443]` yields the single suspicious-port threat, every other case an
empty threat list. -/
def analyzeConnection (conn : ConnectionInfo) : Except Unit (List Threat) :=
  if conn.remoteAddr ≠ "" ∧ pyContainsChar conn.remoteAddr ':' then
    match pyInt ((pySplit conn.remoteAddr ':').getLastD "") with
    | none => .error ()
    | some p =>
      if (lookupA suspiciousPorts p).isSome ∧ ¬(p = 80 ∨ p = 443) then
        .ok [mkSuspiciousThreat conn p]
      else .ok []
  else .ok []

/-! ## firewall_manager.py: rule compilation and apply -/

/-- An internal rule dict as read by `_convert_rule_to_nftables` through
`rule.get(...)`.  Fields read with a default are `Option`s (`none` = key
absent); fields that are immediately coerced/stripped to a string are kept
as plain strings. -/
structure FwRule where
  action : Option String := none
  ipVersion : Option String := none
  direction : Option String := none
  protocol : Option String := none
  port : String := ""
  sourcePort : String := ""
  sourceIp : String := ""
  destinationIp : String := ""
  interface : String := ""
  connState : String := ""
  logging : Bool := false
  logPfx : Option String := none
  ruleName : Option String := none
  logLevel : Option String := none
deriving DecidableEq, Repr

/-- Values stored in the nftables rule dict built by the converter. -/
inductive NftVal where
  | str (s : String)
  | num (n : Int)
  | numRange (lo hi : Int)
  | nums (l : List Int)
  | l4 (protocol : String)
  | ctS (s : String)
  | logV (pfx level : String)
deriving DecidableEq, Repr

/-- An nftables rule dict: keys in insertion order, as the source builds it. -/
abbrev NftDict := List (String × NftVal)

/-- Action translation at the top of `_convert_rule_to_nftables`; an unknown
action is logged and makes the conversion return `None`. -/
def actionMap : Option String → Option String
  | some "allow" => some "accept"
  | some "block" => some "drop"
  | some "reject" => some "reject with icmp type host-prohibited"
  | _ => none

/-- Family selection: `ip6` maps to `ip6`, everything else (including `ip`,
`any` and absent) ends up as `ip`. -/
def familyOf (r : FwRule) : String :=
  if r.ipVersion.getD "any" = "ip6" then "ip6" else "ip"

/-- Compilation of one port field (`port` or `source_port`): a string with a
dash is parsed as a range with `int` on both halves (a parse failure raises,
aborting the whole conversion); a string with commas keeps the all-digit
entries; an all-digit string is a single port; anything else adds no entry. -/
def portEntry (key : String) (s : String) : Option NftDict :=
  let p := pyStrip s
  if p = "" then some []
  else if pyContainsChar p '-' then
    let parts := pySplitOnce p '-'
    match pyInt parts.1, pyInt parts.2 with
    | some lo, some hi => some [(key, .numRange lo hi)]
    | _, _ => none
  else if pyContainsChar p ',' then
    some [(key, .nums ((pySplit p ',').filterMap
      (fun q => (listToNat? (pyStrip q).data).map (fun n => (n : Int)))))]
  else
    match listToNat? p.data with
    | some n => some [(key, .num (n : Int))]
    | none => some []

/-- Compilation of one address field (`source_ip` / `destination_ip`): the
stripped value is used unless empty or (case-insensitively) `any`. -/
def ipEntry (key : String) (s : String) : NftDict :=
  let v := pyStrip s
  if v ≠ "" ∧ pyLower v ≠ "any" then [(key, .str v)] else []

/-- Protocol match: added when the protocol is truthy and not `all`. -/
def metaEntry (r : FwRule) : NftDict :=
  match r.protocol with
  | some pr => if pr ≠ "" ∧ pr ≠ "all" then [("meta", .l4 pr)] else []
  | none => []

/-- Interface match, stored under the direction-dependent key. -/
def ifaceEntry (key : String) (r : FwRule) : NftDict :=
  if pyStrip r.interface ≠ "" then [(key, .str (pyStrip r.interface))] else []

/-- Connection-state match. -/
def ctEntry (r : FwRule) : NftDict :=
  if pyStrip r.connState ≠ "" then [("ct", .ctS (pyStrip r.connState))] else []

/-- Logging entry (prefix is `log_prefix` default `RULE`, then a space, then
the rule name default `Unnamed`). -/
def logEntry (r : FwRule) : NftDict :=
  if r.logging then
    [("log", .logV ((r.logPfx.getD "RULE") ++ " " ++ (r.ruleName.getD "Unnamed"))
      (r.logLevel.getD "info"))]
  else []

/-- The optional middle entries (protocol, ports, addresses); `none` when a
port range fails to parse and the conversion aborts. -/
def midEntries (r : FwRule) : Option NftDict := do
  let dE ← portEntry "dport" r.port
  let sE ← portEntry "sport" r.sourcePort
  pure (metaEntry r ++ dE ++ sE ++ ipEntry "saddr" r.sourceIp ++
    ipEntry "daddr" r.destinationIp)

/-- Body of `_convert_rule_to_nftables` for a fixed chain / interface key
(the code the `in` and `out` branches and the recursive calls of the `both`
branch all execute).  The dict keys appear in the source's insertion order:
action, family, table, chain, meta, dport, sport, saddr, daddr, interface,
ct, log.  Returns `none` when the action is unknown or a port parse raised
(the caught exception also yields `None` in the source). -/
def convertDirected (r : FwRule) (chain ifaceKey : String) : Option NftDict :=
  match actionMap r.action with
  | none => none
  | some act =>
    match midEntries r with
    | none => none
    | some mid =>
      some ([("action", NftVal.str act), ("family", .str (familyOf r)),
        ("table", .str "filter"), ("chain", .str chain)] ++ mid ++
        ifaceEntry ifaceKey r ++ ctEntry r ++ logEntry r)

/-- Value returned by `_convert_rule_to_nftables`: `None`, a single rule
dict, or (for direction `both`) a two-element list whose members are the
results of the recursive calls on copies with direction forced to `in`
resp. `out` (each of which can itself be `None`). -/
inductive ConvResult where
  | fail
  | single (d : NftDict)
  | both (rIn rOut : Option NftDict)
deriving DecidableEq, Repr

/-- Copy of a rule with the direction overwritten (`rule.copy()` followed by
an assignment to `rule['direction']`). -/
def setDirection (r : FwRule) (d : String) : FwRule :=
  { r with direction := some d }

/-- Method `FirewallManager._convert_rule_to_nftables(rule)`.  The unknown-
action test runs first; the direction defaults to `in`; `in` and `out` pick
chain INPUT/iifname resp. OUTPUT/oifname; any other direction (the `both`
branch) returns the two recursive conversions, here unrolled as
`convertDirected` on the direction-forced copies. -/
def convertRule (r : FwRule) : ConvResult :=
  if (actionMap r.action).isNone then .fail
  else
    match r.direction.getD "in" with
    | "in" =>
      match convertDirected r "INPUT" "iifname" with
      | some d => .single d
      | none => .fail
    | "out" =>
      match convertDirected r "OUTPUT" "oifname" with
      | some d => .single d
      | none => .fail
    | _ =>
      .both (convertDirected (setDirection r "in") "INPUT" "iifname")
        (convertDirected (setDirection r "out") "OUTPUT" "oifname")

/-- One statement appended to the ruleset by `apply_rules` for a user rule:
the literal dict `add.rule` with hardcoded family `ip` and the values read
from the converted rule under the keys `table`, `chain` and `expr`. -/
structure NftAddRule where
  family : String
  table : NftVal
  chain : NftVal
  expr : NftVal
deriving DecidableEq, Repr

/-- Per-rule step of the `apply_rules` loop.  `nft_rule = convert(rule)` is
subscripted with the string keys `table`, `chain`, `expr`; when the
conversion returned `None` or a list this raises `TypeError`, and when a key
is missing it raises `KeyError` — in every such case the exception is caught,
logged, and the rule is skipped (`none`). -/
def ruleToStatement (r : FwRule) : Option NftAddRule :=
  match convertRule r with
  | .single d =>
    match lookupA d "table", lookupA d "chain", lookupA d "expr" with
    | some t, some c, some e => some { family := "ip", table := t, chain := c, expr := e }
    | _, _, _ => none
  | _ => none

/-- The user-rule statements `apply_rules` appends after the default baseline
config (`_create_default_nftables_config`) before handing the ruleset to the
nftables backend. -/
def appliedUserStatements (rules : List FwRule) : List NftAddRule :=
  rules.filterMap ruleToStatement

/-! ## Helper lemmas -/

theorem pyInsert_mem {α : Type u} [DecidableEq α] (l : List α) (x : α) :
    x ∈ pyInsert l x := by
  by_cases h : x ∈ l <;> simp [pyInsert, h]

theorem pyRemove_not_mem {α : Type u} [DecidableEq α] (l : List α) (x : α) :
    x ∉ pyRemove l x := by
  simp [pyRemove]

theorem checkAfterBlocklist_portKnocking_of_falsy (env : SecEnv) (s : EnhancedSecurity)
    (ip : String) (now : Int) :
    (checkAfterBlocklist env s ip none now).2.portKnocking = s.portKnocking := by
  unfold checkAfterBlocklist
  dsimp only
  split_ifs <;> rfl

/-- Explicit block-list verdict of step (1) of `check_security`: true exactly
when the IP has an unexpired `blocked_ips` entry. -/
def blockVerdict (s : EnhancedSecurity) (ip : String) (now : Int) : Bool :=
  match lookupA s.blockedIps ip with
  | some t => decide (now < t)
  | none => false

/-- State after step (1) of `check_security`: an expired block entry is
deleted, everything else is untouched. -/
def dropExpired (s : EnhancedSecurity) (ip : String) (now : Int) : EnhancedSecurity :=
  match lookupA s.blockedIps ip with
  | some t => if now < t then s else { s with blockedIps := eraseA s.blockedIps ip }
  | none => s

theorem checkSecurity_of_blocked (env : SecEnv) (s : EnhancedSecurity) (ip : String)
    (port : Option Int) (now : Int) (h : blockVerdict s ip now = true) :
    checkSecurity env s ip port now = (.block, s) := by
  unfold checkSecurity
  unfold blockVerdict at h
  cases hl : lookupA s.blockedIps ip with
  | none => rw [hl] at h; exact absurd h (by simp)
  | some t =>
    rw [hl] at h
    simp only [decide_eq_true_eq] at h
    simp [h]

theorem checkSecurity_of_not_blocked (env : SecEnv) (s : EnhancedSecurity) (ip : String)
    (port : Option Int) (now : Int) (h : blockVerdict s ip now = false) :
    checkSecurity env s ip port now =
      checkAfterBlocklist env (dropExpired s ip now) ip port now := by
  unfold checkSecurity blockVerdict at *
  unfold dropExpired
  cases hl : lookupA s.blockedIps ip with
  | none => simp
  | some t =>
    rw [hl] at h
    simp only [decide_eq_false_iff_not] at h
    simp [h]

/-! ## Claim C7 -/

/-- Claim C7: country blocking is exact and case-insensitive on input —
`block_country(c)` stores the upper-cased code, `unblock_country` removes it
regardless of the input's case, and blocking with lower-case or upper-case
input produces equivalent blocker states (hence the same
`is_country_blocked` answers). -/
theorem country_blocking_case_insensitive (g : GeoIPBlocker) (c d : String)
    (h : pyUpper c = pyUpper d) :
    pyUpper c ∈ (g.blockCountry c).blockedCountries ∧
    g.blockCountry c = g.blockCountry d ∧
    pyUpper c ∉ ((g.blockCountry c).unblockCountry d).blockedCountries ∧
    (∀ geoLookup ip, (g.blockCountry c).isCountryBlocked geoLookup ip =
      (g.blockCountry d).isCountryBlocked geoLookup ip) := by
  have heq : g.blockCountry c = g.blockCountry d := by
    simp [GeoIPBlocker.blockCountry, h]
  refine ⟨pyInsert_mem _ _, heq, ?_, fun geoLookup ip => by rw [heq]⟩
  simpa [GeoIPBlocker.unblockCountry, h] using
    pyRemove_not_mem (g.blockCountry c).blockedCountries (pyUpper d)

/-- Witness for C7 at the spec's own example: blocking "ru" and "RU". -/
theorem country_blocking_case_insensitive_witness :
    pyUpper "ru" ∈ ((⟨true, true, []⟩ : GeoIPBlocker).blockCountry "ru").blockedCountries ∧
    (⟨true, true, []⟩ : GeoIPBlocker).blockCountry "ru" =
      (⟨true, true, []⟩ : GeoIPBlocker).blockCountry "RU" ∧
    pyUpper "ru" ∉
      (((⟨true, true, []⟩ : GeoIPBlocker).blockCountry "ru").unblockCountry "RU").blockedCountries := by
  have h := country_blocking_case_insensitive ⟨true, true, []⟩ "ru" "RU" (by decide)
  exact ⟨h.1, h.2.1, h.2.2.1⟩

/-! ## Claim C10 -/

/-- Claim C10: `check_security` treats port 0 exactly like passing no port at
all — the call with `port = 0` is indistinguishable from the call with
`port = None` (same verdict, same final state), no knock is recorded, and
when no earlier check triggers the verdict is ALLOW rather than the BLOCK a
non-matching supplied port would produce. -/
theorem check_security_port_zero_like_none (env : SecEnv) (s : EnhancedSecurity)
    (ip : String) (now : Int) :
    checkSecurity env s ip (some 0) now = checkSecurity env s ip none now ∧
    (checkSecurity env s ip (some 0) now).2.portKnocking = s.portKnocking ∧
    (blockVerdict s ip now = false →
      ((dropExpired s ip now).rateLimiter.isRateLimited ip "default" now).1 = false →
      (dropExpired s ip now).geoBlocker.isCountryBlocked env.geoLookup ip = false →
      ((dropExpired s ip now).ipReputation.updateThreatFeeds env now).isMalicious ip = false →
      (checkSecurity env s ip (some 0) now).1 = .allow) := by
  have hpk : ∀ s' : EnhancedSecurity,
      (checkAfterBlocklist env s' ip none now).2.portKnocking = s'.portKnocking :=
    fun s' => checkAfterBlocklist_portKnocking_of_falsy env s' ip now
  have hsame : checkSecurity env s ip (some 0) now = checkSecurity env s ip none now := by
    unfold checkSecurity
    cases hl : lookupA s.blockedIps ip with
    | none => rfl
    | some t => rfl
  refine ⟨hsame, ?_, ?_⟩
  · rw [hsame]
    unfold checkSecurity
    cases hl : lookupA s.blockedIps ip with
    | none => exact hpk s
    | some t =>
      by_cases hlt : now < t
      · simp [hlt]
      · simp only [if_neg hlt]
        exact hpk _
  · intro hb hrl hgeo hrep
    rw [hsame, checkSecurity_of_not_blocked env s ip none now hb]
    unfold checkAfterBlocklist
    dsimp only
    rw [hrl, hgeo, hrep]
    simp

/-! ## Claim C5 -/

/-- Claim C5: after `block_ip(ip, D)` at instant `t0`, every
`check_security(ip, ...)` strictly less than `D` seconds later returns BLOCK
with the state untouched; at or after `t0 + D` the entry is expired: it is
removed lazily on that access and the call just runs the remaining checks on
the state with the entry deleted. -/
theorem block_ip_blocks_until_duration (env : SecEnv) (s : EnhancedSecurity) (ip : String)
    (port : Option Int) (dur t0 now : Int) :
    (now - t0 < dur →
      checkSecurity env (blockIp s ip dur t0) ip port now = (.block, blockIp s ip dur t0)) ∧
    (dur ≤ now - t0 →
      checkSecurity env (blockIp s ip dur t0) ip port now =
        checkAfterBlocklist env
          { blockIp s ip dur t0 with
            blockedIps := eraseA (blockIp s ip dur t0).blockedIps ip } ip port now ∧
      lookupA (eraseA (blockIp s ip dur t0).blockedIps ip) ip = none) := by
  have hl : lookupA (blockIp s ip dur t0).blockedIps ip = some (t0 + dur) :=
    lookupA_updateA_self s.blockedIps ip (t0 + dur)
  constructor
  · intro h
    unfold checkSecurity
    rw [hl]
    simp only [if_pos (show now < t0 + dur by omega)]
  · intro h
    refine ⟨?_, lookupA_eraseA_self _ _⟩
    unfold checkSecurity
    rw [hl]
    simp only [if_neg (show ¬ now < t0 + dur by omega)]

/-- Witness for C5: a concrete 300-second block answers BLOCK at 299 seconds
and falls through to the remaining checks (here: ALLOW) at 300 seconds. -/
theorem block_ip_blocks_until_duration_witness :
    checkSecurity ⟨fun _ => none, [], false⟩
      (blockIp ⟨⟨⟨100, 60⟩, [], []⟩, ⟨false, false, []⟩, ⟨[], none, 3600, false⟩,
        ⟨[1000, 2000, 3000], 10, []⟩, []⟩ "203.0.113.9" 300 0) "203.0.113.9" none 299 =
      (.block, blockIp ⟨⟨⟨100, 60⟩, [], []⟩, ⟨false, false, []⟩, ⟨[], none, 3600, false⟩,
        ⟨[1000, 2000, 3000], 10, []⟩, []⟩ "203.0.113.9" 300 0) ∧
    lookupA (eraseA (blockIp ⟨⟨⟨100, 60⟩, [], []⟩, ⟨false, false, []⟩, ⟨[], none, 3600, false⟩,
      ⟨[1000, 2000, 3000], 10, []⟩, []⟩ "203.0.113.9" 300 0).blockedIps "203.0.113.9")
      "203.0.113.9" = none := by
  refine ⟨(block_ip_blocks_until_duration _ _ _ _ _ _ _).1 (by omega), ?_⟩
  exact ((block_ip_blocks_until_duration ⟨fun _ => none, [], false⟩
    ⟨⟨⟨100, 60⟩, [], []⟩, ⟨false, false, []⟩, ⟨[], none, 3600, false⟩,
      ⟨[1000, 2000, 3000], 10, []⟩, []⟩ "203.0.113.9" none 300 0 300).2 (by omega)).2

/-! ## Claim C9 -/

theorem suspicious_cond_iff (p : Int) :
    (((lookupA suspiciousPorts p).isSome ∧ ¬(p = 80 ∨ p = 443)) ↔
      (p = 22 ∨ p = 23 ∨ p = 3389 ∨ p = 5900)) := by
  by_cases h1 : p = 22 <;> by_cases h2 : p = 23 <;> by_cases h3 : p = 80 <;>
    by_cases h4 : p = 443 <;> by_cases h5 : p = 3389 <;> by_cases h6 : p = 5900 <;>
    simp_all [suspiciousPorts, lookupA, eq_comm]

/-- Claim C9: `analyze_connection` emits the suspicious-port alert exactly for
remote ports 22, 23, 3389 and 5900; ports 80 and 443, although present in the
suspicious-port table, never alert (they are filtered by the
`port not in [80, 443]` test); a connection with no remote address (or one
without a colon) produces no alerts. -/
theorem analyze_connection_suspicious_ports (conn : ConnectionInfo) (p : Int) :
    (conn.remoteAddr = "" → analyzeConnection conn = .ok []) ∧
    (pyContainsChar conn.remoteAddr ':' = false → analyzeConnection conn = .ok []) ∧
    (pyContainsChar conn.remoteAddr ':' = true →
      pyInt ((pySplit conn.remoteAddr ':').getLastD "") = some p →
      analyzeConnection conn =
        .ok (if p = 22 ∨ p = 23 ∨ p = 3389 ∨ p = 5900
          then [mkSuspiciousThreat conn p] else [])) := by
  refine ⟨?_, ?_, ?_⟩
  · intro h
    simp [analyzeConnection, h]
  · intro h
    simp [analyzeConnection, h]
  · intro hc hp
    have hne : conn.remoteAddr ≠ "" := by
      intro h
      rw [h] at hc
      exact absurd hc (by decide)
    unfold analyzeConnection
    rw [if_pos ⟨hne, hc⟩, hp]
    dsimp only
    by_cases hs : p = 22 ∨ p = 23 ∨ p = 3389 ∨ p = 5900
    · rw [if_pos ((suspicious_cond_iff p).mpr hs), if_pos hs]
    · rw [if_neg (fun hcond => hs ((suspicious_cond_iff p).mp hcond)),
        if_neg hs]

/-- Witness for C9: a connection to remote port 22 alerts; one with no remote
address does not. -/
theorem analyze_connection_suspicious_ports_witness :
    analyzeConnection ⟨"10.0.0.2:41000", "203.0.113.5:22", "ESTABLISHED", 17, "sshd", "tcp"⟩ =
      .ok [mkSuspiciousThreat
        ⟨"10.0.0.2:41000", "203.0.113.5:22", "ESTABLISHED", 17, "sshd", "tcp"⟩ 22] ∧
    analyzeConnection ⟨"10.0.0.2:41000", "", "LISTEN", 17, "sshd", "tcp"⟩ = .ok [] := by
  constructor
  · have h := (analyze_connection_suspicious_ports
      ⟨"10.0.0.2:41000", "203.0.113.5:22", "ESTABLISHED", 17, "sshd", "tcp"⟩ 22).2.2
      (by decide) (by decide)
    simpa using h
  · exact (analyze_connection_suspicious_ports
      ⟨"10.0.0.2:41000", "", "LISTEN", 17, "sshd", "tcp"⟩ 22).1 rfl

/-! ## Claim C4 -/

/-- Claim C4: with configured sequence [P1, P2, P3] and window W, knocking
P1, P2, P3 in order within W succeeds exactly on the final knock; knocking
P1, P2, waiting past W, then knocking P3 fails because the stale knocks are
evicted before the comparison; and knocking P1, P3, P2 within W fails
whenever that order differs from the configured sequence (success requires
the most recent three recorded knocks to equal the sequence exactly, in
order). -/
theorem port_knocking_scenarios (pk : PortKnocking) (ip : String)
    (p1 p2 p3 w t1 t2 t3 : Int)
    (hseq : pk.sequence = [p1, p2, p3]) (hw : pk.window = w)
    (hempty : lookupA pk.knockAttempts ip = none) :
    (t1 ≤ t2 → t2 ≤ t3 → t3 - t1 ≤ w →
      (pk.addKnock ip p1 t1).1 = false ∧
      ((pk.addKnock ip p1 t1).2.addKnock ip p2 t2).1 = false ∧
      (((pk.addKnock ip p1 t1).2.addKnock ip p2 t2).2.addKnock ip p3 t3).1 = true) ∧
    (t1 ≤ t2 → t2 - t1 ≤ w → w < t3 - t2 →
      (((pk.addKnock ip p1 t1).2.addKnock ip p2 t2).2.addKnock ip p3 t3).1 = false) ∧
    ([p1, p3, p2] ≠ [p1, p2, p3] → t1 ≤ t2 → t2 ≤ t3 → t3 - t1 ≤ w →
      (((pk.addKnock ip p1 t1).2.addKnock ip p3 t2).2.addKnock ip p2 t3).1 = false) := by
  have r1 : (pk.addKnock ip p1 t1).1 = false := by
    simp [PortKnocking.addKnock, PortKnocking.checkSequence, hempty, lookupA_updateA_self, hseq]
  refine ⟨fun h12 h23 h31 => ?_, fun h12 h21w hwait => ?_, fun hne h12 h23 h31 => ?_⟩
  · have ha21 : t2 ≤ w + t1 := by omega
    have ha31 : t3 ≤ w + t1 := by omega
    have ha32 : t3 ≤ w + t2 := by omega
    have r2 : ((pk.addKnock ip p1 t1).2.addKnock ip p2 t2).1 = false := by
      simp [PortKnocking.addKnock, PortKnocking.checkSequence, hempty, lookupA_updateA_self,
        hw, hseq, ha21]
    have r3 : (((pk.addKnock ip p1 t1).2.addKnock ip p2 t2).2.addKnock ip p3 t3).1 = true := by
      simp [PortKnocking.addKnock, PortKnocking.checkSequence, hempty, lookupA_updateA_self,
        hw, hseq, pyLastN, ha21, ha31, ha32]
    exact ⟨r1, r2, r3⟩
  · have ha21 : t2 ≤ w + t1 := by omega
    have hn31 : ¬ t3 ≤ w + t1 := by omega
    have hn32 : ¬ t3 ≤ w + t2 := by omega
    simp [PortKnocking.addKnock, PortKnocking.checkSequence, hempty, lookupA_updateA_self,
      hw, hseq, ha21, hn31, hn32]
  · have ha21 : t2 ≤ w + t1 := by omega
    have ha31 : t3 ≤ w + t1 := by omega
    have ha32 : t3 ≤ w + t2 := by omega
    simp [PortKnocking.addKnock, PortKnocking.checkSequence, hempty, lookupA_updateA_self,
      hw, hseq, pyLastN, ha21, ha31, ha32, hne]

/-- Witness for C4 at the default sequence [1000, 2000, 3000] with window 10:
in-order knocks at instants 0, 1, 2 succeed on the third knock; out-of-order
knocks fail; a 12-second pause before the final knock fails. -/
theorem port_knocking_scenarios_witness :
    ((⟨[1000, 2000, 3000], 10, []⟩ : PortKnocking).addKnock "198.51.100.3" 1000 0).1 = false ∧
    ((((⟨[1000, 2000, 3000], 10, []⟩ : PortKnocking).addKnock "198.51.100.3" 1000 0).2.addKnock
      "198.51.100.3" 2000 1).2.addKnock "198.51.100.3" 3000 2).1 = true ∧
    ((((⟨[1000, 2000, 3000], 10, []⟩ : PortKnocking).addKnock "198.51.100.3" 1000 0).2.addKnock
      "198.51.100.3" 2000 1).2.addKnock "198.51.100.3" 3000 13).1 = false ∧
    ((((⟨[1000, 2000, 3000], 10, []⟩ : PortKnocking).addKnock "198.51.100.3" 1000 0).2.addKnock
      "198.51.100.3" 3000 1).2.addKnock "198.51.100.3" 2000 2).1 = false := by
  have h := port_knocking_scenarios ⟨[1000, 2000, 3000], 10, []⟩ "198.51.100.3"
    1000 2000 3000 10 0 1 2 rfl rfl rfl
  have ha := h.1 (by omega) (by omega) (by omega)
  have hb := (port_knocking_scenarios ⟨[1000, 2000, 3000], 10, []⟩ "198.51.100.3"
    1000 2000 3000 10 0 1 13 rfl rfl rfl).2.1 (by omega) (by omega) (by omega)
  have hc := h.2.2 (by decide) (by omega) (by omega) (by omega)
  exact ⟨ha.1, ha.2.2, hb, hc⟩

/-! ## Claim C8 -/

theorem lookupA_none_iff {κ : Type u} {α : Type v} [DecidableEq κ]
    (l : List (κ × α)) (key : κ) : lookupA l key = none ↔ ∀ kv ∈ l, kv.1 ≠ key := by
  induction l with
  | nil => simp [lookupA]
  | cons hd tl ih =>
    obtain ⟨k, w⟩ := hd
    by_cases hk : k = key
    · subst hk
      simp [lookupA]
    · simp [lookupA, hk, ih]

theorem lookupA_isSome_of_mem {κ : Type u} {α : Type v} [DecidableEq κ]
    {l : List (κ × α)} {k : κ} {v : α} (h : (k, v) ∈ l) : (lookupA l k).isSome := by
  induction l with
  | nil => cases h
  | cons hd tl ih =>
    rcases List.mem_cons.mp h with h1 | h1
    · subst h1
      simp [lookupA]
    · obtain ⟨k1, w⟩ := hd
      by_cases hk : k1 = k
      · simp [lookupA, hk]
      · simpa [lookupA, hk] using ih h1

theorem updateA_of_not_mem {κ : Type u} {α : Type v} [DecidableEq κ]
    (l : List (κ × α)) (key : κ) (v : α) (h : lookupA l key = none) :
    updateA l key v = l ++ [(key, v)] := by
  induction l with
  | nil => rfl
  | cons hd tl ih =>
    obtain ⟨k, w⟩ := hd
    by_cases hk : k = key
    · simp [lookupA, hk] at h
    · simp only [updateA, if_neg hk, List.cons_append, List.cons.injEq, true_and]
      exact ih (by simpa [lookupA, hk] using h)

instance (m : ZoneManager) : Decidable (zoneNamesCaseUnique m) := by
  unfold zoneNamesCaseUnique
  infer_instance

instance (m : ZoneManager) : Decidable (zoneMapWF m) := by
  unfold zoneMapWF
  infer_instance

/-- Claim C8 counterexample: `update_zone` can rewrite a stored zone's name
without rekeying the map.  Starting from a well-formed manager holding zones
named "A" and "B", renaming "B" to "a" via `update_zone` succeeds and leaves
two stored zones whose names differ only in case — so the claim that every
ZoneManager operation preserves case-insensitive name uniqueness is false. -/
theorem zone_update_rename_breaks_uniqueness :
    zoneMapWF ⟨[("a", ⟨"A", "", [], [], false, none, []⟩),
      ("b", ⟨"B", "", [], [], false, none, []⟩)]⟩ ∧
    zoneNamesCaseUnique ⟨[("a", ⟨"A", "", [], [], false, none, []⟩),
      ("b", ⟨"B", "", [], [], false, none, []⟩)]⟩ ∧
    (ZoneManager.updateZone ⟨[("a", ⟨"A", "", [], [], false, none, []⟩),
      ("b", ⟨"B", "", [], [], false, none, []⟩)]⟩ "b"
      ⟨some "a", none, none, none, none, none, none⟩).1 = true ∧
    ¬ zoneNamesCaseUnique (ZoneManager.updateZone ⟨[("a", ⟨"A", "", [], [], false, none, []⟩),
      ("b", ⟨"B", "", [], [], false, none, []⟩)]⟩ "b"
      ⟨some "a", none, none, none, none, none, none⟩).2 := by
  decide

/-- Claim C8 (amended): on a well-formed zone map (every entry keyed by the
lower-cased name of the stored zone, keys distinct), zone names are unique
case-insensitively and `add_zone`, `get_zone` and `delete_zone` preserve
well-formedness; `add_zone` with a name equal (ignoring case) to a stored
zone's name returns False and leaves the map unchanged; after a successful
`add_zone` the zone is retrievable by `get_zone` under any casing of its
name.  (`update_zone` given a new name is the exception established by the
counterexample: it renames in place without rekeying.) -/
theorem zone_manager_name_uniqueness (m : ZoneManager) (z : NetworkZone) (q : String)
    (hwf : zoneMapWF m) :
    zoneNamesCaseUnique m ∧
    zoneMapWF (m.addZone z).2 ∧
    zoneMapWF (m.deleteZone q).2 ∧
    ((∃ kv ∈ m.zones, pyLower kv.2.name = pyLower z.name) → m.addZone z = (false, m)) ∧
    ((m.addZone z).1 = true → pyLower q = pyLower z.name →
      (m.addZone z).2.getZone q = some z) := by
  obtain ⟨hkeys, hnodup⟩ := hwf
  refine ⟨?_, ?_, ?_, ?_, ?_⟩
  · exact hnodup.imp_of_mem (fun {a b} ha hb hne => by
      rw [← hkeys a ha, ← hkeys b hb]; exact hne)
  · by_cases hdup : (lookupA m.zones (pyLower z.name)).isSome
    · simpa [ZoneManager.addZone, hdup] using ⟨hkeys, hnodup⟩
    · have hnone : lookupA m.zones (pyLower z.name) = none :=
        Option.not_isSome_iff_eq_none.mp hdup
      have hfresh : ∀ kv ∈ m.zones, kv.1 ≠ pyLower z.name :=
        (lookupA_none_iff m.zones (pyLower z.name)).mp hnone
      have hres : m.addZone z = (true, ⟨m.zones ++ [(pyLower z.name, z)]⟩) := by
        simp [ZoneManager.addZone, hdup, updateA_of_not_mem _ _ _ hnone]
      rw [hres]
      constructor
      · intro kv hkv
        rcases List.mem_append.mp hkv with hkv | hkv
        · exact hkeys kv hkv
        · simp at hkv
          simp [hkv]
      · rw [List.pairwise_append]
        refine ⟨hnodup, List.pairwise_singleton _ _, ?_⟩
        intro a ha b hb
        simp only [List.mem_singleton] at hb
        subst hb
        exact hfresh a ha
  · unfold ZoneManager.deleteZone
    cases hl : lookupA m.zones (pyLower q) with
    | none => exact ⟨hkeys, hnodup⟩
    | some zz =>
      constructor
      · intro kv hkv
        exact hkeys kv (List.mem_of_mem_filter hkv)
      · exact hnodup.sublist (List.filter_sublist _)
  · rintro ⟨kv, hkv, hname⟩
    have : (lookupA m.zones (pyLower z.name)).isSome := by
      have hmem : (kv.1, kv.2) ∈ m.zones := hkv
      rw [hkeys kv hkv, hname] at hmem
      exact lookupA_isSome_of_mem hmem
    simp [ZoneManager.addZone, this]
  · intro hadded hq
    by_cases hdup : (lookupA m.zones (pyLower z.name)).isSome
    · simp [ZoneManager.addZone, hdup] at hadded
    · have hres : m.addZone z = (true, ⟨updateA m.zones (pyLower z.name) z⟩) := by
        simp [ZoneManager.addZone, hdup]
      rw [hres]
      unfold ZoneManager.getZone
      rw [hq]
      exact lookupA_updateA_self m.zones (pyLower z.name) z

/-- Witness for C8 on a one-zone manager holding "LAN": names are unique,
adding "DMZ" makes it retrievable as "dmz", and adding a zone named "Lan"
is refused without changing the map. -/
theorem zone_manager_name_uniqueness_witness :
    zoneNamesCaseUnique ⟨[("lan", ⟨"LAN", "lan", [], ["eth0"], false, none, []⟩)]⟩ ∧
    ((ZoneManager.addZone ⟨[("lan", ⟨"LAN", "lan", [], ["eth0"], false, none, []⟩)]⟩
      ⟨"DMZ", "dmz", [], ["dmz0"], false, none, []⟩).2.getZone "dmz" =
        some ⟨"DMZ", "dmz", [], ["dmz0"], false, none, []⟩) ∧
    ZoneManager.addZone ⟨[("lan", ⟨"LAN", "lan", [], ["eth0"], false, none, []⟩)]⟩
      ⟨"Lan", "", [], [], false, none, []⟩ =
      (false, ⟨[("lan", ⟨"LAN", "lan", [], ["eth0"], false, none, []⟩)]⟩) := by
  have h1 := zone_manager_name_uniqueness
    ⟨[("lan", ⟨"LAN", "lan", [], ["eth0"], false, none, []⟩)]⟩
    ⟨"DMZ", "dmz", [], ["dmz0"], false, none, []⟩ "dmz" (by decide)
  have h2 := zone_manager_name_uniqueness
    ⟨[("lan", ⟨"LAN", "lan", [], ["eth0"], false, none, []⟩)]⟩
    ⟨"Lan", "", [], [], false, none, []⟩ "lan" (by decide)
  refine ⟨h1.1, h1.2.2.2.2 (by decide) (by decide), ?_⟩
  exact h2.2.2.2.1 ⟨("lan", ⟨"LAN", "lan", [], ["eth0"], false, none, []⟩), by decide, by decide⟩

/-- Witness for C10 on a fresh security state: the call with port 0 equals
the call with no port and returns ALLOW. -/
theorem check_security_port_zero_like_none_witness :
    checkSecurity ⟨fun _ => none, [], false⟩
      ⟨⟨⟨100, 60⟩, [], []⟩, ⟨false, false, []⟩, ⟨[], none, 3600, false⟩,
        ⟨[1000, 2000, 3000], 10, []⟩, []⟩ "192.0.2.8" (some 0) 0 =
      checkSecurity ⟨fun _ => none, [], false⟩
        ⟨⟨⟨100, 60⟩, [], []⟩, ⟨false, false, []⟩, ⟨[], none, 3600, false⟩,
          ⟨[1000, 2000, 3000], 10, []⟩, []⟩ "192.0.2.8" none 0 ∧
    (checkSecurity ⟨fun _ => none, [], false⟩
      ⟨⟨⟨100, 60⟩, [], []⟩, ⟨false, false, []⟩, ⟨[], none, 3600, false⟩,
        ⟨[1000, 2000, 3000], 10, []⟩, []⟩ "192.0.2.8" (some 0) 0).1 = .allow := by
  have h := check_security_port_zero_like_none ⟨fun _ => none, [], false⟩
    ⟨⟨⟨100, 60⟩, [], []⟩, ⟨false, false, []⟩, ⟨[], none, 3600, false⟩,
      ⟨[1000, 2000, 3000], 10, []⟩, []⟩ "192.0.2.8" 0
  exact ⟨h.1, h.2.2 (by decide) (by decide) (by decide) (by decide)⟩

/-! ## Claim C2 -/

theorem portEntry_keys (k s : String) (d : NftDict) (h : portEntry k s = some d) :
    ∀ kv ∈ d, kv.1 = k := by
  unfold portEntry at h
  by_cases h1 : pyStrip s = ""
  · rw [if_pos h1] at h
    simp only [Option.some.injEq] at h
    subst h
    simp
  · rw [if_neg h1] at h
    by_cases h2 : pyContainsChar (pyStrip s) '-' = true
    · rw [if_pos h2] at h
      dsimp only at h
      cases hlo : pyInt (pySplitOnce (pyStrip s) '-').1 <;>
        cases hhi : pyInt (pySplitOnce (pyStrip s) '-').2 <;>
        rw [hlo, hhi] at h
      all_goals first
        | (replace h := Option.some.inj h; subst h; simp)
        | exact absurd h (by simp)
    · rw [if_neg h2] at h
      by_cases h3 : pyContainsChar (pyStrip s) ',' = true
      · rw [if_pos h3] at h
        simp only [Option.some.injEq] at h
        subst h
        simp
      · rw [if_neg h3] at h
        cases hn : listToNat? (pyStrip s).data <;> rw [hn] at h <;>
          (replace h := Option.some.inj h; subst h; simp)

theorem ipEntry_keys (k s : String) : ∀ kv ∈ ipEntry k s, kv.1 = k := by
  simp only [ipEntry]
  split <;> simp_all

theorem metaEntry_keys (r : FwRule) : ∀ kv ∈ metaEntry r, kv.1 = "meta" := by
  unfold metaEntry
  repeat' split
  all_goals simp_all

theorem ifaceEntry_keys (k : String) (r : FwRule) : ∀ kv ∈ ifaceEntry k r, kv.1 = k := by
  unfold ifaceEntry
  split <;> simp_all

theorem ctEntry_keys (r : FwRule) : ∀ kv ∈ ctEntry r, kv.1 = "ct" := by
  unfold ctEntry
  split <;> simp_all

theorem logEntry_keys (r : FwRule) : ∀ kv ∈ logEntry r, kv.1 = "log" := by
  unfold logEntry
  split <;> simp_all

theorem midEntries_keys (r : FwRule) (mid : NftDict) (h : midEntries r = some mid) :
    ∀ kv ∈ mid,
      kv.1 = "meta" ∨ kv.1 = "dport" ∨ kv.1 = "sport" ∨ kv.1 = "saddr" ∨ kv.1 = "daddr" := by
  unfold midEntries at h
  cases hd : portEntry "dport" r.port with
  | none => rw [hd] at h; cases h
  | some dE =>
    cases hs : portEntry "sport" r.sourcePort with
    | none => rw [hd, hs] at h; simp at h
    | some sE =>
      rw [hd, hs] at h
      simp only [Option.some_bind, Option.bind_eq_bind, Option.pure_def,
        Option.some.injEq] at h
      subst h
      intro kv hkv
      simp only [List.mem_append] at hkv
      rcases hkv with (((hkv | hkv) | hkv) | hkv) | hkv
      · exact Or.inl (metaEntry_keys r kv hkv)
      · exact Or.inr (Or.inl (portEntry_keys _ _ _ hd kv hkv))
      · exact Or.inr (Or.inr (Or.inl (portEntry_keys _ _ _ hs kv hkv)))
      · exact Or.inr (Or.inr (Or.inr (Or.inl (ipEntry_keys _ _ kv hkv))))
      · exact Or.inr (Or.inr (Or.inr (Or.inr (ipEntry_keys _ _ kv hkv))))

theorem convertDirected_inv (r : FwRule) (chain ik : String) (d : NftDict)
    (h : convertDirected r chain ik = some d) :
    ∃ act mid, actionMap r.action = some act ∧ midEntries r = some mid ∧
      d = [("action", NftVal.str act), ("family", .str (familyOf r)),
        ("table", .str "filter"), ("chain", .str chain)] ++ mid ++
        ifaceEntry ik r ++ ctEntry r ++ logEntry r := by
  unfold convertDirected at h
  cases ha : actionMap r.action with
  | none => rw [ha] at h; cases h
  | some act =>
    rw [ha] at h
    cases hm : midEntries r with
    | none => rw [hm] at h; cases h
    | some mid =>
      rw [hm] at h
      simp only [Option.some.injEq] at h
      exact ⟨act, mid, rfl, rfl, h.symm⟩

theorem convertDirected_no_expr (r : FwRule) (chain ik : String) (d : NftDict)
    (hik : ik ≠ "expr") (h : convertDirected r chain ik = some d) :
    lookupA d "expr" = none := by
  obtain ⟨act, mid, ha, hm, hd⟩ := convertDirected_inv r chain ik d h
  subst hd
  apply lookupA_of_keys_ne
  intro kv hkv
  simp only [List.append_assoc, List.mem_append, List.mem_cons, List.not_mem_nil,
    or_false] at hkv
  rcases hkv with (hkv | hkv | hkv | hkv) | hkv | hkv | hkv | hkv
  · simp [hkv]
  · simp [hkv]
  · simp [hkv]
  · simp [hkv]
  · rcases midEntries_keys r mid hm kv hkv with hk | hk | hk | hk | hk <;>
      rw [hk] <;> decide
  · rw [ifaceEntry_keys ik r kv hkv]; exact hik
  · rw [ctEntry_keys r kv hkv]; decide
  · rw [logEntry_keys r kv hkv]; decide

theorem convertRule_single_inv (r : FwRule) (d : NftDict) (h : convertRule r = .single d) :
    convertDirected r "INPUT" "iifname" = some d ∨
      convertDirected r "OUTPUT" "oifname" = some d := by
  unfold convertRule at h
  by_cases ha : (actionMap r.action).isNone
  · rw [if_pos ha] at h
    cases h
  · rw [if_neg ha] at h
    split at h
    · left
      cases hcd : convertDirected r "INPUT" "iifname" with
      | none => rw [hcd] at h; cases h
      | some d0 =>
        rw [hcd] at h
        cases h
        rfl
    · right
      cases hcd : convertDirected r "OUTPUT" "oifname" with
      | none => rw [hcd] at h; cases h
      | some d0 =>
        rw [hcd] at h
        cases h
        rfl
    · cases h

/-- Every converted rule is dropped by the `apply_rules` loop: a conversion
result that is `None` or a list raises `TypeError`, and a dict result has no
`expr` key, so the `nft_rule['expr']` access raises `KeyError`; in all cases
the exception handler skips the rule. -/
theorem ruleToStatement_none (r : FwRule) : ruleToStatement r = none := by
  unfold ruleToStatement
  cases hc : convertRule r with
  | fail => rfl
  | both a b => rfl
  | single d =>
    have hex : lookupA d "expr" = none := by
      rcases convertRule_single_inv r d hc with h | h
      · exact convertDirected_no_expr r "INPUT" "iifname" d (by decide) h
      · exact convertDirected_no_expr r "OUTPUT" "oifname" d (by decide) h
    dsimp only
    rw [hex]
    cases lookupA d "table" <;> cases lookupA d "chain" <;> rfl

/-- Claim C2, settled as a code bug.  The conversion layer itself behaves as
the claim says: an unknown action (here "deny") fails compilation and the
rule is excluded while the loop proceeds, and a well-formed allow rule
compiles.  But `apply_rules` reads `nft_rule['expr']` although the converter
never emits an `expr` key, so every rule — including the compiled allow rule
— is dropped by the per-rule exception handler and the backend receives no
user statement at all, contradicting the claim (and the code's own
docstring and success log) that apply proceeds with the remaining rules. -/
theorem apply_rules_expr_key_bug :
    convertRule { action := some "deny" } = .fail ∧
    convertRule { action := some "allow", direction := some "in" } =
      ConvResult.single [("action", .str "accept"), ("family", .str "ip"),
        ("table", .str "filter"), ("chain", .str "INPUT")] ∧
    appliedUserStatements [{ action := some "deny" },
      { action := some "allow", direction := some "in" }] = [] ∧
    ∀ rules : List FwRule, appliedUserStatements rules = [] := by
  refine ⟨by decide, by decide, by decide, fun rules => ?_⟩
  unfold appliedUserStatements
  induction rules with
  | nil => rfl
  | cons r rest ih => simp [List.filterMap_cons, ruleToStatement_none, ih]

/-! ## Claim C6 -/

/-- Dict keys that are direction-dependent in a compiled statement: the
chain (INPUT/OUTPUT) and the interface key (iifname/oifname). -/
def directionKeys : List String := ["chain", "iifname", "oifname"]

/-- A compiled statement with its direction-dependent entries removed. -/
def undirected (d : NftDict) : NftDict :=
  d.filter (fun kv => decide (kv.1 ∉ directionKeys))

/-- Claim C6 counterexample: the rule `{action: "allow", direction: "both",
port: "x-y"}` has a known action and direction "both", yet it does not
compile to two statements — `int("x")` raises inside each recursive
conversion, so the result is a two-element list holding `None` twice. -/
theorem convert_both_malformed_port_counterexample :
    ({ action := some "allow", direction := some "both", port := "x-y" } : FwRule).direction
        = some "both" ∧
    actionMap ({ action := some "allow", direction := some "both",
                 port := "x-y" } : FwRule).action = some "accept" ∧
    convertRule { action := some "allow", direction := some "both", port := "x-y" } =
      ConvResult.both none none := by
  exact ⟨rfl, rfl, by decide⟩

/-- Claim C6 (amended): for every rule with direction "both", a known action
and port fields that compile without error, compilation yields exactly two
compiled statements that agree once the chain and interface keys are
removed; one carries chain INPUT with the interface under iifname, the other
chain OUTPUT with the same interface value under oifname.  The expansion is
pure compile-time work: the converter maps one rule value to the pair and
never touches the stored rule list. -/
theorem convert_both_direction_expansion (r : FwRule)
    (hd : r.direction = some "both") (ha : (actionMap r.action).isSome)
    (hp : (portEntry "dport" r.port).isSome)
    (hs : (portEntry "sport" r.sourcePort).isSome) :
    ∃ d1 d2, convertRule r = .both (some d1) (some d2) ∧
      undirected d1 = undirected d2 ∧
      lookupA d1 "chain" = some (.str "INPUT") ∧
      lookupA d2 "chain" = some (.str "OUTPUT") ∧
      lookupA d1 "iifname" = lookupA d2 "oifname" ∧
      lookupA d1 "oifname" = none ∧
      lookupA d2 "iifname" = none := by
  obtain ⟨act, hact⟩ := Option.isSome_iff_exists.mp ha
  obtain ⟨dE, hdE⟩ := Option.isSome_iff_exists.mp hp
  obtain ⟨sE, hsE⟩ := Option.isSome_iff_exists.mp hs
  have hmid : midEntries r = some (metaEntry r ++ dE ++ sE ++
      ipEntry "saddr" r.sourceIp ++ ipEntry "daddr" r.destinationIp) := by
    unfold midEntries
    rw [hdE, hsE]
    rfl
  have hcr : convertRule r = .both (convertDirected r "INPUT" "iifname")
      (convertDirected r "OUTPUT" "oifname") := by
    unfold convertRule
    rw [hd]
    simp only [hact, Option.isNone_some, Bool.false_eq_true, if_false, Option.getD_some]
    rfl
  have h1 : convertDirected r "INPUT" "iifname" =
      some ([("action", NftVal.str act), ("family", .str (familyOf r)),
        ("table", .str "filter"), ("chain", .str "INPUT")] ++
        (metaEntry r ++ dE ++ sE ++ ipEntry "saddr" r.sourceIp ++
          ipEntry "daddr" r.destinationIp) ++
        ifaceEntry "iifname" r ++ ctEntry r ++ logEntry r) := by
    unfold convertDirected
    rw [hact, hmid]
  have h2 : convertDirected r "OUTPUT" "oifname" =
      some ([("action", NftVal.str act), ("family", .str (familyOf r)),
        ("table", .str "filter"), ("chain", .str "OUTPUT")] ++
        (metaEntry r ++ dE ++ sE ++ ipEntry "saddr" r.sourceIp ++
          ipEntry "daddr" r.destinationIp) ++
        ifaceEntry "oifname" r ++ ctEntry r ++ logEntry r) := by
    unfold convertDirected
    rw [hact, hmid]
  have uSelf : ∀ l : NftDict, (∀ kv ∈ l, kv.1 ∉ directionKeys) → undirected l = l :=
    fun l h => List.filter_eq_self.mpr (fun kv hkv => by simpa using h kv hkv)
  have humeta : undirected (metaEntry r) = metaEntry r :=
    uSelf _ (fun kv hkv => by rw [metaEntry_keys r kv hkv]; decide)
  have hudE : undirected dE = dE :=
    uSelf _ (fun kv hkv => by rw [portEntry_keys _ _ _ hdE kv hkv]; decide)
  have husE : undirected sE = sE :=
    uSelf _ (fun kv hkv => by rw [portEntry_keys _ _ _ hsE kv hkv]; decide)
  have husa : undirected (ipEntry "saddr" r.sourceIp) = ipEntry "saddr" r.sourceIp :=
    uSelf _ (fun kv hkv => by rw [ipEntry_keys _ _ kv hkv]; decide)
  have huda : undirected (ipEntry "daddr" r.destinationIp) = ipEntry "daddr" r.destinationIp :=
    uSelf _ (fun kv hkv => by rw [ipEntry_keys _ _ kv hkv]; decide)
  have huct : undirected (ctEntry r) = ctEntry r :=
    uSelf _ (fun kv hkv => by rw [ctEntry_keys r kv hkv]; decide)
  have hulog : undirected (logEntry r) = logEntry r :=
    uSelf _ (fun kv hkv => by rw [logEntry_keys r kv hkv]; decide)
  have huiface : ∀ ik, ik = "iifname" ∨ ik = "oifname" →
      undirected (ifaceEntry ik r) = [] := by
    intro ik hik
    apply List.filter_eq_nil_iff.mpr
    intro kv hkv
    rw [ifaceEntry_keys ik r kv hkv]
    rcases hik with h | h <;> simp [directionKeys, h]
  have nOf : ∀ (l : NftDict) (k0 key : String), (∀ kv ∈ l, kv.1 = k0) → key ≠ k0 →
      lookupA l key = none :=
    fun l k0 key hl hk =>
      lookupA_of_keys_ne l key (fun kv hkv => by rw [hl kv hkv]; exact Ne.symm hk)
  refine ⟨_, _, by rw [hcr, h1, h2], ?_, ?_, ?_, ?_, ?_, ?_⟩
  · have hua : ∀ a b : NftDict, undirected (a ++ b) = undirected a ++ undirected b :=
      fun a b => by simp [undirected]
    simp only [List.append_assoc, hua]
    rw [humeta, hudE, husE, husa, huda, huct, hulog,
      huiface "iifname" (Or.inl rfl), huiface "oifname" (Or.inr rfl)]
    simp [undirected, directionKeys]
  · simp [lookupA, List.append_assoc]
  · simp [lookupA, List.append_assoc]
  · simp only [List.append_assoc]
    have redL : lookupA ([("action", NftVal.str act), ("family", .str (familyOf r)),
        ("table", .str "filter"), ("chain", .str "INPUT")] ++
        (metaEntry r ++ (dE ++ (sE ++ (ipEntry "saddr" r.sourceIp ++
          (ipEntry "daddr" r.destinationIp ++ (ifaceEntry "iifname" r ++
            (ctEntry r ++ logEntry r)))))))) "iifname" =
        lookupA (ifaceEntry "iifname" r ++ (ctEntry r ++ logEntry r)) "iifname" := by
      rw [lookupA_append_none _ _ _ (by simp [lookupA]),
        lookupA_append_none _ _ _ (nOf _ "meta" _ (metaEntry_keys r) (by decide)),
        lookupA_append_none _ _ _ (nOf _ "dport" _ (portEntry_keys _ _ _ hdE) (by decide)),
        lookupA_append_none _ _ _ (nOf _ "sport" _ (portEntry_keys _ _ _ hsE) (by decide)),
        lookupA_append_none _ _ _ (nOf _ "saddr" _ (ipEntry_keys _ _) (by decide)),
        lookupA_append_none _ _ _ (nOf _ "daddr" _ (ipEntry_keys _ _) (by decide))]
    have redR : lookupA ([("action", NftVal.str act), ("family", .str (familyOf r)),
        ("table", .str "filter"), ("chain", .str "OUTPUT")] ++
        (metaEntry r ++ (dE ++ (sE ++ (ipEntry "saddr" r.sourceIp ++
          (ipEntry "daddr" r.destinationIp ++ (ifaceEntry "oifname" r ++
            (ctEntry r ++ logEntry r)))))))) "oifname" =
        lookupA (ifaceEntry "oifname" r ++ (ctEntry r ++ logEntry r)) "oifname" := by
      rw [lookupA_append_none _ _ _ (by simp [lookupA]),
        lookupA_append_none _ _ _ (nOf _ "meta" _ (metaEntry_keys r) (by decide)),
        lookupA_append_none _ _ _ (nOf _ "dport" _ (portEntry_keys _ _ _ hdE) (by decide)),
        lookupA_append_none _ _ _ (nOf _ "sport" _ (portEntry_keys _ _ _ hsE) (by decide)),
        lookupA_append_none _ _ _ (nOf _ "saddr" _ (ipEntry_keys _ _) (by decide)),
        lookupA_append_none _ _ _ (nOf _ "daddr" _ (ipEntry_keys _ _) (by decide))]
    rw [redL, redR]
    by_cases hif : pyStrip r.interface ≠ ""
    · simp [ifaceEntry, hif, lookupA]
    · have hi1 : ifaceEntry "iifname" r = [] := by simp [ifaceEntry, hif]
      have hi2 : ifaceEntry "oifname" r = [] := by simp [ifaceEntry, hif]
      rw [hi1, hi2]
      simp only [List.nil_append]
      rw [lookupA_append_none _ _ _ (nOf _ "ct" _ (ctEntry_keys r) (by decide)),
        lookupA_append_none _ _ _ (nOf _ "ct" _ (ctEntry_keys r) (by decide)),
        nOf _ "log" _ (logEntry_keys r) (by decide),
        nOf _ "log" _ (logEntry_keys r) (by decide)]
  · simp only [List.append_assoc]
    rw [lookupA_append_none _ _ _ (by simp [lookupA]),
      lookupA_append_none _ _ _ (nOf _ "meta" _ (metaEntry_keys r) (by decide)),
      lookupA_append_none _ _ _ (nOf _ "dport" _ (portEntry_keys _ _ _ hdE) (by decide)),
      lookupA_append_none _ _ _ (nOf _ "sport" _ (portEntry_keys _ _ _ hsE) (by decide)),
      lookupA_append_none _ _ _ (nOf _ "saddr" _ (ipEntry_keys _ _) (by decide)),
      lookupA_append_none _ _ _ (nOf _ "daddr" _ (ipEntry_keys _ _) (by decide)),
      lookupA_append_none _ _ _ (nOf _ "iifname" _ (ifaceEntry_keys _ r) (by decide)),
      lookupA_append_none _ _ _ (nOf _ "ct" _ (ctEntry_keys r) (by decide)),
      nOf _ "log" _ (logEntry_keys r) (by decide)]
  · simp only [List.append_assoc]
    rw [lookupA_append_none _ _ _ (by simp [lookupA]),
      lookupA_append_none _ _ _ (nOf _ "meta" _ (metaEntry_keys r) (by decide)),
      lookupA_append_none _ _ _ (nOf _ "dport" _ (portEntry_keys _ _ _ hdE) (by decide)),
      lookupA_append_none _ _ _ (nOf _ "sport" _ (portEntry_keys _ _ _ hsE) (by decide)),
      lookupA_append_none _ _ _ (nOf _ "saddr" _ (ipEntry_keys _ _) (by decide)),
      lookupA_append_none _ _ _ (nOf _ "daddr" _ (ipEntry_keys _ _) (by decide)),
      lookupA_append_none _ _ _ (nOf _ "oifname" _ (ifaceEntry_keys _ r) (by decide)),
      lookupA_append_none _ _ _ (nOf _ "ct" _ (ctEntry_keys r) (by decide)),
      nOf _ "log" _ (logEntry_keys r) (by decide)]

/-- Witness for C6 (amended) at a concrete rule: allow, both directions,
port 80, interface eth0. -/
theorem convert_both_direction_expansion_witness :
    ∃ d1 d2,
      convertRule { action := some "allow", direction := some "both", port := "80",
                    interface := "eth0" } = ConvResult.both (some d1) (some d2) ∧
      undirected d1 = undirected d2 ∧
      lookupA d1 "chain" = some (.str "INPUT") ∧
      lookupA d2 "chain" = some (.str "OUTPUT") ∧
      lookupA d1 "iifname" = lookupA d2 "oifname" ∧
      lookupA d1 "oifname" = none ∧
      lookupA d2 "iifname" = none :=
  convert_both_direction_expansion
    { action := some "allow", direction := some "both", port := "80",
      interface := "eth0" : FwRule } rfl (by decide) (by decide) (by decide)

/-! ## Claim C1 -/

/-- Claim C1 counterexample: port 0 is "supplied" but falsy in Python, so
with a fresh default state (knock sequence [1000, 2000, 3000], nothing
blocked) the call `check_security(ip, 0)` returns ALLOW although the knock
sequence does not match (no knock is even recorded) — where the claim's
"a supplied-but-non-matching port yields BLOCK" demands BLOCK. -/
theorem check_security_port_zero_allow_counterexample :
    (checkSecurity ⟨fun _ => none, [], false⟩
      ⟨⟨⟨100, 60⟩, [], []⟩, ⟨false, false, []⟩, ⟨[], none, 3600, false⟩,
        ⟨[1000, 2000, 3000], 10, []⟩, []⟩ "198.51.100.77" (some 0) 0).1 =
      SecurityAction.allow ∧
    (PortKnocking.addKnock ⟨[1000, 2000, 3000], 10, []⟩ "198.51.100.77" 0 0).1 = false := by
  decide

/-- Claim C1 (amended): the checks run in the fixed order block list, rate
limiter, GeoIP, reputation feed, port knocking, and the verdict is the first
triggered one; a tripped rate limiter additionally auto-blocks the IP until
now + 300; the port-knocking step runs only for a supplied NONZERO port
(port 0 is falsy and skips it), returning ALLOW on a sequence match and
BLOCK otherwise; with no truthy port and nothing triggered the verdict is
ALLOW.  The stage predicates are evaluated on the state after the lazy
deletion of an expired block entry (`dropExpired`), mirroring the source. -/
theorem check_security_dispatch_order (env : SecEnv) (s : EnhancedSecurity) (ip : String)
    (port : Option Int) (now : Int) :
    (blockVerdict s ip now = true → checkSecurity env s ip port now = (.block, s)) ∧
    (blockVerdict s ip now = false →
      (((dropExpired s ip now).rateLimiter.isRateLimited ip "default" now).1 = true →
        (checkSecurity env s ip port now).1 = .rate_limit ∧
        lookupA (checkSecurity env s ip port now).2.blockedIps ip = some (now + 300)) ∧
      (((dropExpired s ip now).rateLimiter.isRateLimited ip "default" now).1 = false →
        ((dropExpired s ip now).geoBlocker.isCountryBlocked env.geoLookup ip = true →
          (checkSecurity env s ip port now).1 = .geo_block) ∧
        ((dropExpired s ip now).geoBlocker.isCountryBlocked env.geoLookup ip = false →
          (((dropExpired s ip now).ipReputation.updateThreatFeeds env now).isMalicious ip
              = true →
            (checkSecurity env s ip port now).1 = .reputation_block) ∧
          (((dropExpired s ip now).ipReputation.updateThreatFeeds env now).isMalicious ip
              = false →
            (∀ p : Int, port = some p → p ≠ 0 →
              (checkSecurity env s ip port now).1 =
                (if ((dropExpired s ip now).portKnocking.addKnock ip p now).1
                  then .allow else .block)) ∧
            ((port = none ∨ port = some 0) →
              (checkSecurity env s ip port now).1 = .allow))))) := by
  constructor
  · exact fun h => checkSecurity_of_blocked env s ip port now h
  · intro hb
    rw [checkSecurity_of_not_blocked env s ip port now hb]
    constructor
    · intro hrl
      unfold checkAfterBlocklist
      dsimp only
      rw [hrl]
      simp [lookupA_updateA_self]
    · intro hrl
      constructor
      · intro hgeo
        unfold checkAfterBlocklist
        dsimp only
        rw [hrl, hgeo]
        simp
      · intro hgeo
        constructor
        · intro hrep
          unfold checkAfterBlocklist
          dsimp only
          rw [hrl, hgeo, hrep]
          simp
        · intro hrep
          constructor
          · intro p hp hpz
            subst hp
            unfold checkAfterBlocklist
            dsimp only
            rw [hrl, hgeo, hrep]
            simp [hpz]
          · rintro (hpo | hpo) <;> subst hpo <;>
              (unfold checkAfterBlocklist; dsimp only; rw [hrl, hgeo, hrep]; simp)

/-- Witness for C1 (amended): a blocked IP answers BLOCK with the state
unchanged, and on a fresh state with no truthy port the answer is ALLOW. -/
theorem check_security_dispatch_order_witness :
    checkSecurity ⟨fun _ => none, [], false⟩
      ⟨⟨⟨100, 60⟩, [], []⟩, ⟨false, false, []⟩, ⟨[], none, 3600, false⟩,
        ⟨[1000, 2000, 3000], 10, []⟩, [("203.0.113.44", 500)]⟩ "203.0.113.44" none 100 =
      (.block, ⟨⟨⟨100, 60⟩, [], []⟩, ⟨false, false, []⟩, ⟨[], none, 3600, false⟩,
        ⟨[1000, 2000, 3000], 10, []⟩, [("203.0.113.44", 500)]⟩) ∧
    (checkSecurity ⟨fun _ => none, [], false⟩
      ⟨⟨⟨100, 60⟩, [], []⟩, ⟨false, false, []⟩, ⟨[], none, 3600, false⟩,
        ⟨[1000, 2000, 3000], 10, []⟩, []⟩ "203.0.113.44" none 100).1 =
      SecurityAction.allow := by
  constructor
  · exact (check_security_dispatch_order ⟨fun _ => none, [], false⟩
      ⟨⟨⟨100, 60⟩, [], []⟩, ⟨false, false, []⟩, ⟨[], none, 3600, false⟩,
        ⟨[1000, 2000, 3000], 10, []⟩, [("203.0.113.44", 500)]⟩ "203.0.113.44" none 100).1
      (by decide)
  · exact ((((check_security_dispatch_order ⟨fun _ => none, [], false⟩
      ⟨⟨⟨100, 60⟩, [], []⟩, ⟨false, false, []⟩, ⟨[], none, 3600, false⟩,
        ⟨[1000, 2000, 3000], 10, []⟩, []⟩ "203.0.113.44" none 100).2
      (by decide)).2 (by decide)).2 (by decide)).2 (by decide) |>.2 (Or.inl rfl)

/-! ## Claim C3 -/

/-- Scenario harness: repeated `is_rate_limited` calls for one (ip, endpoint)
at the given instants; returns the per-call results in order and the final
limiter state. -/
def rlRun (rl : RateLimiter) (ip ep : String) : List Int → List Bool × RateLimiter
  | [] => ([], rl)
  | t :: ts =>
    let r1 := rl.isRateLimited ip ep t
    let rest := rlRun r1.2 ip ep ts
    (r1.1 :: rest.1, rest.2)

theorem dropWhile_eq_self_of {α : Type u} (p : α → Bool) (l : List α)
    (h : ∀ x ∈ l, p x = false) : l.dropWhile p = l := by
  cases l with
  | nil => rfl
  | cons x xs =>
    rw [List.dropWhile_cons, h x (List.mem_cons_self x xs)]
    simp

theorem dropWhile_eq_nil_of {α : Type u} (p : α → Bool) (l : List α)
    (h : ∀ x ∈ l, p x = true) : l.dropWhile p = [] := by
  induction l with
  | nil => rfl
  | cons x xs ih =>
    rw [List.dropWhile_cons, h x (List.mem_cons_self x xs)]
    simp only [if_true]
    exact ih (fun y hy => h y (List.mem_cons_of_mem x hy))

theorem isRateLimited_configs (rl : RateLimiter) (ip ep : String) (now : Int) :
    (rl.isRateLimited ip ep now).2.defaultConfig = rl.defaultConfig ∧
    (rl.isRateLimited ip ep now).2.otherConfigs = rl.otherConfigs := by
  unfold RateLimiter.isRateLimited
  dsimp only
  split <;> exact ⟨rfl, rfl⟩

theorem rlRun_configs (ip ep : String) : ∀ (ts : List Int) (rl : RateLimiter),
    (rlRun rl ip ep ts).2.defaultConfig = rl.defaultConfig ∧
    (rlRun rl ip ep ts).2.otherConfigs = rl.otherConfigs := by
  intro ts
  induction ts with
  | nil => exact fun rl => ⟨rfl, rfl⟩
  | cons t ts ih =>
    intro rl
    have h1 := isRateLimited_configs rl ip ep t
    have h2 := ih (rl.isRateLimited ip ep t).2
    exact ⟨h2.1.trans h1.1, h2.2.trans h1.2⟩

theorem resolveEp_eq_of_configs {rl rl2 : RateLimiter}
    (h : rl2.otherConfigs = rl.otherConfigs) (ep : String) :
    rl2.resolveEp ep = rl.resolveEp ep := by
  unfold RateLimiter.resolveEp RateLimiter.hasEndpoint
  rw [h]

theorem cfgFor_eq_of_configs {rl rl2 : RateLimiter}
    (h1 : rl2.defaultConfig = rl.defaultConfig)
    (h2 : rl2.otherConfigs = rl.otherConfigs) (ep : String) :
    rl2.cfgFor ep = rl.cfgFor ep := by
  unfold RateLimiter.cfgFor
  rw [h1, h2]

/-- Evaluation of one `is_rate_limited` call from known queue and config. -/
theorem isRateLimited_eval (rl : RateLimiter) (ip ep : String) (now : Int)
    (N : Nat) (W : Int) (q q2 : List Int)
    (hcfg : rl.cfgFor (rl.resolveEp ep) = ⟨N, W⟩)
    (hq : rl.queueOf ip (rl.resolveEp ep) = q)
    (hq2 : q.dropWhile (fun x => decide (now - x > W)) = q2) :
    rl.isRateLimited ip ep now =
      (if N ≤ q2.length then
        (true, { rl with requests := updateA rl.requests (ip, rl.resolveEp ep) q2 })
      else
        (false, { rl with requests := updateA rl.requests (ip, rl.resolveEp ep) (q2 ++ [now]) })) := by
  unfold RateLimiter.isRateLimited
  dsimp only
  rw [hq, hcfg]
  dsimp only
  rw [hq2]

/-- Induction core for claim C3: from a queue `pre` whose entries (and all
upcoming call instants) lie in one window [a, a + W], and room for the calls
(`pre.length + ts.length ≤ N`), every call passes and the queue accumulates
the call instants in order with nothing evicted. -/
theorem rlRun_in_window (ip ep : String) (N : Nat) (W a : Int) :
    ∀ (ts : List Int) (rl : RateLimiter) (pre : List Int),
      rl.cfgFor (rl.resolveEp ep) = ⟨N, W⟩ →
      rl.queueOf ip (rl.resolveEp ep) = pre →
      (∀ x ∈ pre, a ≤ x ∧ x ≤ a + W) → (∀ x ∈ ts, a ≤ x ∧ x ≤ a + W) →
      pre.length + ts.length ≤ N →
      (rlRun rl ip ep ts).1 = List.replicate ts.length false ∧
      (rlRun rl ip ep ts).2.queueOf ip ((rlRun rl ip ep ts).2.resolveEp ep) = pre ++ ts := by
  intro ts
  induction ts with
  | nil =>
    intro rl pre hcfg hq hpre hts hlen
    exact ⟨rfl, by simpa using hq⟩
  | cons t ts ih =>
    intro rl pre hcfg hq hpre hts hlen
    have hta : a ≤ t ∧ t ≤ a + W := hts t (List.mem_cons_self t ts)
    have hq2 : pre.dropWhile (fun x => decide (t - x > W)) = pre := by
      apply dropWhile_eq_self_of
      intro x hx
      have hxa := hpre x hx
      simp only [decide_eq_false_iff_not, not_lt]
      omega
    have hlt : ¬ N ≤ pre.length := by
      simp only [List.length_cons] at hlen
      omega
    have hstep : rl.isRateLimited ip ep t = (false, { rl with requests := updateA rl.requests (ip, rl.resolveEp ep) (pre ++ [t]) }) := by
      rw [isRateLimited_eval rl ip ep t N W pre pre hcfg hq hq2, if_neg hlt]
    have hq' : ({ rl with requests := updateA rl.requests (ip, rl.resolveEp ep) (pre ++ [t]) } : RateLimiter).queueOf ip (rl.resolveEp ep) = pre ++ [t] := by
      unfold RateLimiter.queueOf
      rw [lookupA_updateA_self]
      rfl
    have hrec := ih { rl with requests := updateA rl.requests (ip, rl.resolveEp ep) (pre ++ [t]) } (pre ++ [t]) hcfg hq'
      (by
        intro x hx
        rcases List.mem_append.mp hx with hx | hx
        · exact hpre x hx
        · simp only [List.mem_singleton] at hx
          subst hx
          exact hta)
      (fun x hx => hts x (List.mem_cons_of_mem t hx))
      (by
        simp only [List.length_append, List.length_singleton, List.length_cons,
          List.length_nil] at hlen ⊢
        omega)
    constructor
    · show ((rl.isRateLimited ip ep t).1 :: (rlRun (rl.isRateLimited ip ep t).2 ip ep ts).1) =
        List.replicate (t :: ts).length false
      rw [hstep]
      simp only [List.length_cons, List.replicate_succ]
      exact congrArg (List.cons false) hrec.1
    · show (rlRun (rl.isRateLimited ip ep t).2 ip ep ts).2.queueOf ip
        ((rlRun (rl.isRateLimited ip ep t).2 ip ep ts).2.resolveEp ep) = pre ++ t :: ts
      rw [hstep]
      rw [hrec.2]
      simp

/-- Claim C3 counterexample: with max_requests = 1 and window = 10, one
request at instant 0 passes; at instant 10 — once W seconds have elapsed
from the first request — the next request is still rejected, because the
eviction condition is strictly `now - t > W` and the entry aged exactly W
survives.  This falsifies "once W seconds have elapsed from the first
request ... that IP may again make N requests" at the window boundary. -/
theorem rate_limiter_exact_window_counterexample :
    (RateLimiter.isRateLimited ⟨⟨1, 10⟩, [], []⟩ "233.252.0.9" "default" 0).1 = false ∧
    ((RateLimiter.isRateLimited ⟨⟨1, 10⟩, [], []⟩ "233.252.0.9" "default" 0).2.isRateLimited
      "233.252.0.9" "default" 10).1 = true ∧
    ((RateLimiter.isRateLimited ⟨⟨1, 10⟩, [], []⟩ "233.252.0.9" "default" 0).2.isRateLimited
      "233.252.0.9" "default" 11).1 = false := by
  decide

/-- Claim C3 (amended): with max_requests = N and window = W for the resolved
endpoint, (i) starting from an empty queue, N requests within one window all
pass and an (N+1)-th request within W of the window base is rejected;
(ii) once strictly more than W seconds have elapsed since every recorded
request (t0 with W < b - t0 for the new base instant b), the IP may again
make N requests — the stale entries are evicted on the first new call. -/
theorem rate_limiter_window_requests (rl : RateLimiter) (ip ep : String) (N : Nat)
    (W a b tf : Int) (ts tsb : List Int)
    (hcfg : rl.cfgFor (rl.resolveEp ep) = ⟨N, W⟩) :
    (rl.queueOf ip (rl.resolveEp ep) = [] → ts.length = N →
      (∀ x ∈ ts, a ≤ x ∧ x ≤ a + W) → a ≤ tf → tf ≤ a + W →
      (rlRun rl ip ep ts).1 = List.replicate N false ∧
      ((rlRun rl ip ep ts).2.isRateLimited ip ep tf).1 = true) ∧
    (tsb.length = N → 0 < N →
      (∀ x ∈ tsb, b ≤ x ∧ x ≤ b + W) →
      (∀ t0 ∈ rl.queueOf ip (rl.resolveEp ep), W < b - t0) →
      (rlRun rl ip ep tsb).1 = List.replicate N false ∧
      (rlRun rl ip ep tsb).2.queueOf ip ((rlRun rl ip ep tsb).2.resolveEp ep) = tsb) := by
  constructor
  · intro hq hlen hts hfa hfb
    obtain ⟨hrun, hqf⟩ := rlRun_in_window ip ep N W a ts rl [] hcfg hq
      (by intro x hx; cases hx) hts (by simpa using hlen.le)
    have hoc : (rlRun rl ip ep ts).2.otherConfigs = rl.otherConfigs :=
      (rlRun_configs ip ep ts rl).2
    have hdc : (rlRun rl ip ep ts).2.defaultConfig = rl.defaultConfig :=
      (rlRun_configs ip ep ts rl).1
    have hre : (rlRun rl ip ep ts).2.resolveEp ep = rl.resolveEp ep :=
      resolveEp_eq_of_configs hoc ep
    have hcfgf : (rlRun rl ip ep ts).2.cfgFor ((rlRun rl ip ep ts).2.resolveEp ep) =
        ⟨N, W⟩ := by
      rw [hre, cfgFor_eq_of_configs hdc hoc]
      exact hcfg
    have hqf2 : (rlRun rl ip ep ts).2.queueOf ip ((rlRun rl ip ep ts).2.resolveEp ep) =
        ts := by
      rw [hqf]
      simp
    have hdrop : ts.dropWhile (fun x => decide (tf - x > W)) = ts := by
      apply dropWhile_eq_self_of
      intro x hx
      have := hts x hx
      simp only [decide_eq_false_iff_not, not_lt]
      omega
    refine ⟨by simpa [hlen] using hrun, ?_⟩
    rw [isRateLimited_eval _ ip ep tf N W ts ts hcfgf hqf2 hdrop,
      if_pos (by rw [hlen])]
  · intro hlen hpos hts hold
    cases tsb with
    | nil => simp at hlen; omega
    | cons u rest =>
      have hu : b ≤ u ∧ u ≤ b + W := hts u (List.mem_cons_self u rest)
      have hdrop : (rl.queueOf ip (rl.resolveEp ep)).dropWhile
          (fun x => decide (u - x > W)) = [] := by
        apply dropWhile_eq_nil_of
        intro x hx
        have := hold x hx
        simp only [decide_eq_true_eq]
        omega
      have hNpos : ¬ N ≤ ([] : List Int).length := by
        simp only [List.length_nil, Nat.le_zero]
        omega
      have hstep : rl.isRateLimited ip ep u = (false, { rl with requests := updateA rl.requests (ip, rl.resolveEp ep) [u] }) := by
        rw [isRateLimited_eval rl ip ep u N W _ [] hcfg rfl hdrop, if_neg hNpos]
        rfl
      have hq' : ({ rl with requests := updateA rl.requests (ip, rl.resolveEp ep) [u] } : RateLimiter).queueOf ip (rl.resolveEp ep) = [u] := by
        unfold RateLimiter.queueOf
        rw [lookupA_updateA_self]
        rfl
      obtain ⟨hrun, hqf⟩ := rlRun_in_window ip ep N W b rest
        { rl with requests := updateA rl.requests (ip, rl.resolveEp ep) [u] } [u] hcfg hq'
        (by
          intro x hx
          simp only [List.mem_singleton] at hx
          subst hx
          exact hu)
        (fun x hx => hts x (List.mem_cons_of_mem u hx))
        (by
          simp only [List.length_singleton, List.length_cons, List.length_nil] at hlen ⊢
          omega)
      constructor
      · show ((rl.isRateLimited ip ep u).1 ::
            (rlRun (rl.isRateLimited ip ep u).2 ip ep rest).1) = List.replicate N false
        rw [hstep]
        simp only [List.length_cons] at hlen
        rw [← hlen, List.replicate_succ]
        exact congrArg (List.cons false) hrun
      · show (rlRun (rl.isRateLimited ip ep u).2 ip ep rest).2.queueOf ip
            ((rlRun (rl.isRateLimited ip ep u).2 ip ep rest).2.resolveEp ep) = u :: rest
        rw [hstep, hqf]
        rfl

/-- Witness for C3 (amended): with max_requests = 2, window = 10, requests at
instants 0 and 5 pass and a third at 9 is rejected; and from a state holding
a stale request at instant 0, requests at 20 and 21 both pass again. -/
theorem rate_limiter_window_requests_witness :
    (rlRun ⟨⟨2, 10⟩, [], []⟩ "203.0.113.2" "default" [0, 5]).1 =
      List.replicate 2 false ∧
    ((rlRun ⟨⟨2, 10⟩, [], []⟩ "203.0.113.2" "default" [0, 5]).2.isRateLimited
      "203.0.113.2" "default" 9).1 = true ∧
    (rlRun ⟨⟨2, 10⟩, [], [(("203.0.113.2", "default"), [0])]⟩ "203.0.113.2" "default"
      [20, 21]).1 = List.replicate 2 false := by
  have h1 := (rate_limiter_window_requests ⟨⟨2, 10⟩, [], []⟩ "203.0.113.2" "default"
    2 10 0 0 9 [0, 5] [] rfl).1 rfl rfl (by decide) (by decide) (by decide)
  have h2 := (rate_limiter_window_requests ⟨⟨2, 10⟩, [], [(("203.0.113.2", "default"), [0])]⟩
    "203.0.113.2" "default" 2 10 0 20 0 [] [20, 21] rfl).2 rfl (by decide)
    (by decide) (by decide)
  exact ⟨h1.1, h1.2, h2.1⟩
